import Mathlib

/-!
Verification of the notice-watcher change-detection engine of this
repository (src/check_pages.py and its near-duplicate variant
src/check_pages.py.py).

Modelling conventions, chosen to mirror the Python source:
* Python strings are lists of characters (code points), type `Str`.
* Python `dict` is an association list updated in place (`dictUpsert`);
  insertion order is preserved, assignment to an existing key replaces the
  stored value, exactly as in CPython.
* Python `set` is a duplicate-free list; `set.add` is `addKnown`.
* `sorted` / `list.sort` is a stable insertion sort `sSort` parameterised by
  a boolean `le`; CPython computes the key of every element up front, so a
  key that raises is modelled by an `Except.error` before sorting, and a
  mixed int/str key list (which raises `TypeError` in CPython as soon as two
  incomparable keys meet, which happens whenever both kinds are present)
  is likewise an `Except.error`.
* `int(...)` is `pyInt`, defined on non-empty strings of decimal digits and
  `none` (a raised `ValueError`) elsewhere.  `str.isdigit` is `pyIsDigit`;
  Python accepts further Unicode digit characters beyond the decimal digits
  that `int` accepts, and the model keeps one representative of these,
  U+00B2 (superscript two), in `pyIsDigitChar`.
* Network fetch (`fetch_html`, `requests`) is abstracted: the final URL and
  the parsed document are inputs.  BeautifulSoup queries are abstracted by
  taking their results as inputs: a `Row` is a `tr` element (the stripped
  texts of its `td` cells and its first `a` descendant), an `Anchor` is an
  `a` element (its stripped text, raw `href` and `onclick` attributes, and
  the `td` texts of its enclosing `tr` for the fallback pass).
* `urllib.parse.urljoin` is a function parameter `ujoin`; the path piece of
  `urlparse(target_url)` and the `scheme://netloc` base of the variant are
  inputs (`pathPre`, `base`), since the claims under verification hold for
  every value of these.
* `telegram_send` is a boolean function parameter `send` (`false` models a
  raised exception); message text is irrelevant to the claims, so the
  notifications actually delivered are recorded as the list of items sent.
-/

namespace NotiWatch

/-- Python strings, modelled as their lists of characters (code points). -/
abbrev Str := List Char

/-- Embedding of a Lean string literal into the model. -/
def str (s : String) : Str := s.data

/-- Model of Python str.strip(): drop whitespace at both ends. -/
def pyStrip (s : Str) : Str :=
  ((s.dropWhile Char.isWhitespace).reverse.dropWhile Char.isWhitespace).reverse

/-- Model of Python str.lower(). -/
def pyLower (s : Str) : Str := s.map Char.toLower

/-- Python str.isdigit() accepts every decimal digit but also further Unicode
digit characters that int(...) rejects; the model keeps one representative of
the latter, U+00B2 (superscript two). -/
def pyIsDigitChar (c : Char) : Bool := c.isDigit || c = Char.ofNat 178

/-- Model of Python str.isdigit(): non-empty and all digit characters. -/
def pyIsDigit (s : Str) : Bool := !s.isEmpty && s.all pyIsDigitChar

/-- Model of Python int(...): defined on non-empty strings of decimal digits,
`none` models the ValueError raised on any other input. -/
def pyInt (s : Str) : Option Nat :=
  if s ≠ [] ∧ s.all Char.isDigit then
    some (s.foldl (fun n c => 10 * n + (c.toNat - 48)) 0)
  else none

/-- Code-point lexicographic comparison, Python str <= str. -/
def strLe : Str → Str → Bool
  | [], _ => true
  | _ :: _, [] => false
  | a :: as, b :: bs => if a < b then true else if b < a then false else strLe as bs

/-- The id comparison key of the spec: numeric when the id is a string of
decimal digits, else the raw string. -/
def keyOf (s : Str) : Sum Nat Str :=
  match pyInt s with
  | some n => Sum.inl n
  | none => Sum.inr s

/-- Order on comparison keys: numbers by value, strings lexicographically;
the two kinds are never compared in any run that does not raise, and the
cross cases here (numbers before strings) only make the order total. -/
def keyLeB : Sum Nat Str → Sum Nat Str → Bool
  | Sum.inl m, Sum.inl n => decide (m ≤ n)
  | Sum.inl _, Sum.inr _ => true
  | Sum.inr _, Sum.inl _ => false
  | Sum.inr a, Sum.inr b => strLe a b

/-- Stable insertion of an element into a sorted list: the new element goes
after every existing element that compares le to it, as CPython places a
later element after an equal earlier one. -/
def sInsert (le : α → α → Bool) (a : α) : List α → List α
  | [] => [a]
  | b :: l => if le b a then b :: sInsert le a l else a :: b :: l

/-- Stable sort, the model of Python sorted(...) and list.sort(...):
elements are inserted left to right. -/
def sSort (le : α → α → Bool) (l : List α) : List α :=
  l.foldl (fun acc a => sInsert le a acc) []

/-- One detected entry: the dataclass Item of the source. -/
structure Item where
  item_id : Str
  title : Str
  url : Str
deriving DecidableEq

/-- Sort key int(it.item_id) as used by the primary variant; total on the
lists guarded by the isSome check that models the raising of int. -/
def numOf (it : Item) : Nat := (pyInt it.item_id).getD 0

/-- Ascending comparison by int(item_id) (primary run_target line 274). -/
def intAscB (a b : Item) : Bool := decide (numOf a ≤ numOf b)

/-- Descending comparison by int(item_id) (parser sorts, reverse=True). -/
def intDescB (a b : Item) : Bool := decide (numOf b ≤ numOf a)

/-- The sort_key of the variant file (lines 110 to 111 and 136 to 137):
int(item_id) if item_id.isdigit() else item_id; `none` models the ValueError
raised when isdigit admits a non-decimal digit character. -/
def pyKey (s : Str) : Option (Sum Nat Str) :=
  if pyIsDigit s then (pyInt s).map Sum.inl else some (Sum.inr s)

/-- Total default reading of pyKey, used only under the isSome guard. -/
def keyB (it : Item) : Sum Nat Str := (pyKey it.item_id).getD (Sum.inr it.item_id)

/-- Ascending comparison by the variant sort key. -/
def keyAscB (a b : Item) : Bool := keyLeB (keyB a) (keyB b)

/-- Descending comparison by the variant sort key. -/
def keyDescB (a b : Item) : Bool := keyLeB (keyB b) (keyB a)

/-- Descending plain-string comparison used by save_state. -/
def strDescB (a b : Str) : Bool := strLe b a

/-- Python dict lookup on the association-list model. -/
def alookup {β : Type} : List (Str × β) → Str → Option β
  | [], _ => none
  | (k', v) :: rest, k => if k' = k then some v else alookup rest k

/-- Python dict assignment d[k] = v: replace in place when the key exists
(insertion order kept), else append. -/
def dictUpsert {β : Type} : List (Str × β) → Str → β → List (Str × β)
  | [], k, v => [(k, v)]
  | (k', v') :: rest, k, v =>
    if k' = k then (k, v) :: rest else (k', v') :: dictUpsert rest k v

/-- Build a dict from a sequence of assignments performed left to right. -/
def dictOfPairs {β : Type} (ps : List (Str × β)) : List (Str × β) :=
  ps.foldl (fun d p => dictUpsert d p.1 p.2) []

/-- The keys of a dict. -/
def dkeys {β : Type} (d : List (Str × β)) : List Str := d.map Prod.fst

/-- The value written last for a key over a whole assignment sequence. -/
def lastAssoc {β : Type} (ps : List (Str × β)) (k : Str) : Option β :=
  alookup ps.reverse k

/-- An a element as the model sees it. -/
structure Anchor where
  text : Str
  href : Option Str
  onclick : Option Str
  parentTds : Option (List Str)
deriving DecidableEq

/-- A tr element: stripped td texts and first a descendant, if any. -/
structure Row where
  tds : List Str
  firstA : Option Anchor
deriving DecidableEq

/-- The no-op link targets ruled out at check_pages.py line 117. -/
def placeholders : List Str :=
  [str ("#"), str ("javascript:void(0);"), str ("javascript:void(0)")]

/-- A quote character, single or double. -/
def isQuote (c : Char) : Bool := c = Char.ofNat 39 || c = Char.ofNat 34

/-- Leftmost quoted non-empty substring of a string: the model of the regex
search at check_pages.py line 121 (a quote, one or more non-quote characters
captured greedily, a closing quote of either kind). -/
def findQuoted : Str → Option Str
  | [] => none
  | c :: rest =>
    if isQuote c then
      let cap := rest.takeWhile (fun d => !isQuote d)
      if cap ≠ [] ∧ rest.drop cap.length ≠ [] then some cap
      else findQuoted rest
    else findQuoted rest

/-- Link resolution of the tabular strategy primary pass (check_pages.py
lines 113 to 124); ujoin abstracts urllib.parse.urljoin. -/
def resolveRowUrl (ujoin : Str → Str → Str) (target_url final_url : Str)
    (hrefAttr onclickAttr : Option Str) : Str :=
  let href := pyStrip (hrefAttr.getD [])
  let onclick := pyStrip (onclickAttr.getD [])
  if href ≠ [] ∧ href ∉ placeholders ∧
      (str ("javascript:")).isPrefixOf (pyLower href) = false then
    ujoin final_url href
  else
    match findQuoted onclick with
    | some u => ujoin final_url u
    | none => target_url

/-- Primary pass of the tabular strategy, one row (check_pages.py lines 96
to 125): first td text entirely numeric becomes the id, the first anchor
supplies the non-empty title and the link. -/
def rowCandidate (ujoin : Str → Str → Str) (target_url final_url : Str)
    (tr : Row) : Option (Str × Item) :=
  match tr.tds with
  | [] => none
  | no :: _ =>
    if pyIsDigit no = false then none
    else
      match tr.firstA with
      | none => none
      | some a =>
        if a.text = [] then none
        else some (no, ⟨no, a.text,
          resolveRowUrl ujoin target_url final_url a.href a.onclick⟩)

/-- Fallback pass of the tabular strategy, anchor first (check_pages.py
lines 128 to 147): walk to the enclosing row, same first-cell-numeric rule;
the URL rule here has no placeholder list and no onclick search. -/
def anchorCandidate (ujoin : Str → Str → Str) (target_url final_url : Str)
    (a : Anchor) : Option (Str × Item) :=
  if a.text = [] then none
  else
    match a.parentTds with
    | none => none
    | some [] => none
    | some (no :: _) =>
      if pyIsDigit no = false then none
      else
        let href := pyStrip (a.href.getD [])
        let full_url :=
          if href ≠ [] ∧ (str ("javascript:")).isPrefixOf (pyLower href) = false
          then ujoin final_url href else target_url
        some (no, ⟨no, a.text, full_url⟩)

/-- Assignment sequence of parse_html_list_number_id: the primary pass, or,
when it matched nothing (the dict is empty exactly when no row produced a
candidate), the fallback pass. -/
def candListNumberId (ujoin : Str → Str → Str) (target_url final_url : Str)
    (rows : List Row) (anchors : List Anchor) : List (Str × Item) :=
  let phase1 := rows.filterMap (rowCandidate ujoin target_url final_url)
  if phase1.isEmpty then anchors.filterMap (anchorCandidate ujoin target_url final_url)
  else phase1

/-- Case-insensitive literal-prefix removal (re.IGNORECASE on a literal). -/
def dropCI : Str → Str → Option Str
  | [], l => some l
  | _ :: _, [] => none
  | p :: ps, c :: cs => if p.toLower = c.toLower then dropCI ps cs else none

/-- Case-sensitive literal-prefix removal (re.escape of a literal). -/
def dropLit : Str → Str → Option Str
  | [], l => some l
  | _ :: _, [] => none
  | p :: ps, c :: cs => if p = c then dropLit ps cs else none

/-- Leftmost match of the regex [?&]name=(digits), case-insensitive in the
parameter name, capturing the maximal digit run (check_pages.py lines 170
and 230); a match attempt with an empty digit run fails and the search
resumes at the next position, as re.search does. -/
def findParamNum (pname : Str) : Str → Option Str
  | [] => none
  | c :: rest =>
    if c = '?' || c = '&' then
      match dropCI pname rest with
      | some rest' =>
        let ds := rest'.takeWhile Char.isDigit
        if ds = [] then findParamNum pname rest else some ds
      | none => findParamNum pname rest
    else findParamNum pname rest

/-- Leftmost match of re.escape(pathPre) followed by a slash and a captured
maximal digit run (check_pages.py line 202). -/
def findPathNum (pathPre : Str) : Str → Option Str
  | [] => none
  | c :: rest =>
    match dropLit (pathPre ++ [Char.ofNat 47]) (c :: rest) with
    | some rest' =>
      let ds := rest'.takeWhile Char.isDigit
      if ds = [] then findPathNum pathPre rest else some ds
    | none => findPathNum pathPre rest

/-- One a[href] element of the three regex strategies of the primary file
(check_pages.py lines 162 to 174, 194 to 207, 222 to 234): stripped href,
stripped text of length at least 3, id from the strategy regex. -/
def linkCandidate (ujoin : Str → Str → Str) (final_url : Str)
    (extractId : Str → Option Str) (a : Anchor) : Option (Str × Item) :=
  match a.href with
  | none => none
  | some rawHref =>
    let href := pyStrip rawHref
    if a.text = [] ∨ a.text.length < 3 then none
    else
      match extractId href with
      | some id => some (id, ⟨id, a.text, ujoin final_url href⟩)
      | none => none

/-- Assignment sequence of parse_html_link_with_key. -/
def candLinkWithKey (ujoin : Str → Str → Str) (final_url : Str)
    (anchors : List Anchor) : List (Str × Item) :=
  anchors.filterMap (linkCandidate ujoin final_url (findParamNum (str ("key="))))

/-- Assignment sequence of parse_html_link_with_path_number; pathPre is the
path of urlparse(target_url) with trailing slashes removed, taken as an
input of the model. -/
def candLinkWithPathNumber (ujoin : Str → Str → Str) (pathPre final_url : Str)
    (anchors : List Anchor) : List (Str × Item) :=
  anchors.filterMap (linkCandidate ujoin final_url (findPathNum pathPre))

/-- Assignment sequence of parse_html_link_with_num_param. -/
def candLinkWithNumParam (ujoin : Str → Str → Str) (final_url : Str)
    (anchors : List Anchor) : List (Str × Item) :=
  anchors.filterMap (linkCandidate ujoin final_url (findParamNum (str ("num="))))

/-- Final step of the four primary-file parsers (check_pages.py lines 149,
176, 209, 236): sort the dict values descending by int(item_id) and model
the ValueError of int on a non-decimal id, raised while the keys are
computed, as an error. -/
def finishIntAll (cands : List (Str × Item)) : Except Unit (List Item) :=
  let vals := (dictOfPairs cands).map Prod.snd
  if vals.all (fun it => (pyInt it.item_id).isSome) then
    Except.ok (sSort intDescB vals)
  else Except.error ()

/-- parse_html_list_number_id before the cap (check_pages.py lines 75 to
149); fetch_html is abstracted, final_url and the parsed document are
inputs. -/
def parse_html_list_number_id_all (ujoin : Str → Str → Str)
    (target_url final_url : Str) (rows : List Row) (anchors : List Anchor) :
    Except Unit (List Item) :=
  finishIntAll (candListNumberId ujoin target_url final_url rows anchors)

/-- parse_html_list_number_id (check_pages.py lines 75 to 150). -/
def parse_html_list_number_id (ujoin : Str → Str → Str)
    (target_url final_url : Str) (rows : List Row) (anchors : List Anchor)
    (latest_n : Nat) : Except Unit (List Item) :=
  (parse_html_list_number_id_all ujoin target_url final_url rows anchors).map
    (List.take latest_n)

/-- parse_html_link_with_key before the cap (check_pages.py lines 152 to
176). -/
def parse_html_link_with_key_all (ujoin : Str → Str → Str) (final_url : Str)
    (anchors : List Anchor) : Except Unit (List Item) :=
  finishIntAll (candLinkWithKey ujoin final_url anchors)

/-- parse_html_link_with_key (check_pages.py lines 152 to 177). -/
def parse_html_link_with_key (ujoin : Str → Str → Str) (final_url : Str)
    (anchors : List Anchor) (latest_n : Nat) : Except Unit (List Item) :=
  (parse_html_link_with_key_all ujoin final_url anchors).map (List.take latest_n)

/-- parse_html_link_with_path_number before the cap (check_pages.py lines
179 to 209). -/
def parse_html_link_with_path_number_all (ujoin : Str → Str → Str)
    (pathPre final_url : Str) (anchors : List Anchor) : Except Unit (List Item) :=
  finishIntAll (candLinkWithPathNumber ujoin pathPre final_url anchors)

/-- parse_html_link_with_path_number (check_pages.py lines 179 to 210). -/
def parse_html_link_with_path_number (ujoin : Str → Str → Str)
    (pathPre final_url : Str) (anchors : List Anchor) (latest_n : Nat) :
    Except Unit (List Item) :=
  (parse_html_link_with_path_number_all ujoin pathPre final_url anchors).map
    (List.take latest_n)

/-- parse_html_link_with_num_param before the cap (check_pages.py lines 212
to 236). -/
def parse_html_link_with_num_param_all (ujoin : Str → Str → Str)
    (final_url : Str) (anchors : List Anchor) : Except Unit (List Item) :=
  finishIntAll (candLinkWithNumParam ujoin final_url anchors)

/-- parse_html_link_with_num_param (check_pages.py lines 212 to 237). -/
def parse_html_link_with_num_param (ujoin : Str → Str → Str) (final_url : Str)
    (anchors : List Anchor) (latest_n : Nat) : Except Unit (List Item) :=
  (parse_html_link_with_num_param_all ujoin final_url anchors).map
    (List.take latest_n)

/-- normalize_url of the variant file (check_pages.py.py lines 68 to 73). -/
def normalize_url (ujoin : Str → Str → Str) (href base : Str) : Str :=
  if (str ("http://")).isPrefixOf href || (str ("https://")).isPrefixOf href then href
  else if (str ("/")).isPrefixOf href then ujoin base href
  else ujoin (base ++ [Char.ofNat 47]) href

/-- Leftmost case-insensitive match of re.escape(keyPat) capturing the
maximal non-empty run of characters other than ampersand and hash
(check_pages.py.py line 91). -/
def findKeyTail (keyPat : Str) : Str → Option Str
  | [] => none
  | c :: rest =>
    match dropCI keyPat (c :: rest) with
    | some rest' =>
      let cap := rest'.takeWhile (fun d => !(d = '&' || d = '#'))
      if cap = [] then findKeyTail keyPat rest else some cap
    | none => findKeyTail keyPat rest

/-- One a[href] element of the variant strategy (check_pages.py.py lines 95
to 107): raw href (not stripped), stripped captured group as id, non-empty
title, URL via normalize_url against the scheme-netloc base. -/
def keyListCandidate (ujoin : Str → Str → Str) (keyPat base : Str)
    (a : Anchor) : Option (Str × Item) :=
  match a.href with
  | none => none
  | some href =>
    match findKeyTail keyPat href with
    | none => none
    | some cap =>
      let item_id := pyStrip cap
      if a.text = [] then none
      else some (item_id, ⟨item_id, a.text, normalize_url ujoin href base⟩)

/-- Assignment sequence of parse_html_key_list. -/
def candKeyList (ujoin : Str → Str → Str) (keyPat base : Str)
    (anchors : List Anchor) : List (Str × Item) :=
  anchors.filterMap (keyListCandidate ujoin keyPat base)

/-- Final step of the variant parser (check_pages.py.py lines 110 to 114):
sort the dict values descending by the isdigit-dispatched key; an undefined
key (int raising) or a mix of numeric and string keys raises. -/
def finishKeyAll (cands : List (Str × Item)) : Except Unit (List Item) :=
  let vals := (dictOfPairs cands).map Prod.snd
  if vals.all (fun it => (pyKey it.item_id).isSome) then
    if vals.any (fun it => pyIsDigit it.item_id) &&
        vals.any (fun it => !pyIsDigit it.item_id) then Except.error ()
    else Except.ok (sSort keyDescB vals)
  else Except.error ()

/-- parse_html_key_list before the cap (check_pages.py.py lines 75 to 113);
the fetch and the urlparse-derived base are abstracted as inputs. -/
def parse_html_key_list_all (ujoin : Str → Str → Str) (keyPat base : Str)
    (anchors : List Anchor) : Except Unit (List Item) :=
  finishKeyAll (candKeyList ujoin keyPat base anchors)

/-- parse_html_key_list (check_pages.py.py lines 75 to 114). -/
def parse_html_key_list (ujoin : Str → Str → Str) (keyPat base : Str)
    (anchors : List Anchor) (latest_n : Nat) : Except Unit (List Item) :=
  (parse_html_key_list_all ujoin keyPat base anchors).map (List.take latest_n)

/-- The five extraction strategies of the two files. -/
inductive Strategy where
  | listNumberId
  | linkWithKey
  | linkWithPathNumber
  | linkWithNumParam
  | keyList
deriving DecidableEq

/-- The inputs a strategy reads: the listing and final URLs, the
urlparse-derived path piece and scheme-netloc base, the configured key
pattern, and the parsed document. -/
structure PageInput where
  target_url : Str
  final_url : Str
  base : Str
  pathPre : Str
  keyPat : Str
  rows : List Row
  anchors : List Anchor

/-- The assignment sequence a strategy performs on its dict. -/
def strategyCands (s : Strategy) (ujoin : Str → Str → Str) (p : PageInput) :
    List (Str × Item) :=
  match s with
  | Strategy.listNumberId =>
      candListNumberId ujoin p.target_url p.final_url p.rows p.anchors
  | Strategy.linkWithKey => candLinkWithKey ujoin p.final_url p.anchors
  | Strategy.linkWithPathNumber =>
      candLinkWithPathNumber ujoin p.pathPre p.final_url p.anchors
  | Strategy.linkWithNumParam => candLinkWithNumParam ujoin p.final_url p.anchors
  | Strategy.keyList => candKeyList ujoin p.keyPat p.base p.anchors

/-- Extraction before the cap, dispatched on the strategy. -/
def extractAll (s : Strategy) (ujoin : Str → Str → Str) (p : PageInput) :
    Except Unit (List Item) :=
  match s with
  | Strategy.listNumberId =>
      parse_html_list_number_id_all ujoin p.target_url p.final_url p.rows p.anchors
  | Strategy.linkWithKey => parse_html_link_with_key_all ujoin p.final_url p.anchors
  | Strategy.linkWithPathNumber =>
      parse_html_link_with_path_number_all ujoin p.pathPre p.final_url p.anchors
  | Strategy.linkWithNumParam =>
      parse_html_link_with_num_param_all ujoin p.final_url p.anchors
  | Strategy.keyList => parse_html_key_list_all ujoin p.keyPat p.base p.anchors

/-- Extraction with the cap: items[:latest_n]. -/
def extract (s : Strategy) (ujoin : Str → Str → Str) (p : PageInput)
    (latest_n : Nat) : Except Unit (List Item) :=
  (extractAll s ujoin p).map (List.take latest_n)

/-- A per-source known-id set, modelled as a duplicate-free list. -/
abbrev KnownList := List Str

/-- The in-memory state mapping of source name to known-id set. -/
abbrev StateMap := List (Str × KnownList)

/-- Python set.add on the list model of a set. -/
def addKnown (seen : KnownList) (id : Str) : KnownList :=
  if id ∈ seen then seen else seen ++ [id]

/-- Ids of a run of items added one after the other. -/
def addAll (seen : KnownList) (items : List Item) : KnownList :=
  items.foldl (fun s it => addKnown s it.item_id) seen

/-- save_state (check_pages.py lines 42 to 45): per source, sort descending
by plain string comparison and keep the first 3000 entries. -/
def save_state (st : StateMap) : StateMap :=
  st.map (fun kv => (kv.1, (sSort strDescB kv.2).take 3000))

/-- How one source run can end. -/
inductive OutcomeKind where
  | fetchError
  | parseWarning
  | noNew
  | sortError
  | sendFailed
  | committed
deriving DecidableEq

/-- The observable result of one source run: how it ended, which new-item
notifications were delivered, and the state mapping afterwards. -/
structure RunResult where
  kind : OutcomeKind
  sent : List Item
  state : StateMap
deriving DecidableEq

/-- The Notifying loop (check_pages.py lines 276 to 281).  send models
telegram_send and returns false when the send raises; aliased records
whether seen is the very set object stored in the state mapping (true
exactly when the source already had an entry), in which case every add is
immediately visible there.  Returns the state, the seen set, the items
actually sent, and whether the loop completed. -/
def notifyGo (send : Item → Bool) (name : Str) (aliased : Bool) :
    List Item → StateMap → KnownList → StateMap × KnownList × List Item × Bool
  | [], st, seen => (st, seen, [], true)
  | it :: rest, st, seen =>
    if send it then
      let seen' := addKnown seen it.item_id
      let st' := if aliased then dictUpsert st name seen' else st
      let r := notifyGo send name aliased rest st' seen'
      (r.1, r.2.1, it :: r.2.2.1, r.2.2.2)
    else (st, seen, [], false)

/-- The diff of the primary run_target (lines 268 and 274): keep items whose
id is absent from seen, then sort ascending by int(item_id). -/
def newSorted (items : List Item) (seen : KnownList) : List Item :=
  sSort intAscB (items.filter (fun it => decide (it.item_id ∉ seen)))

/-- run_target of the primary file (check_pages.py lines 239 to 283), with
fetch and parse abstracted into the fetched argument (an error is a raised
fetch or parse exception, which propagates). -/
def run_target (send : Item → Bool) (name : Str)
    (fetched : Except Unit (List Item)) (st : StateMap) : RunResult :=
  match fetched with
  | Except.error _ => ⟨OutcomeKind.fetchError, [], st⟩
  | Except.ok items =>
    let seenOpt := alookup st name
    let seen := seenOpt.getD []
    if items.isEmpty then ⟨OutcomeKind.parseWarning, [], st⟩
    else
      let new_items := items.filter (fun it => decide (it.item_id ∉ seen))
      if new_items.isEmpty then ⟨OutcomeKind.noNew, [], st⟩
      else if new_items.all (fun it => (pyInt it.item_id).isSome) then
        let r := notifyGo send name seenOpt.isSome (newSorted items seen) st seen
        if r.2.2.2 then ⟨OutcomeKind.committed, r.2.2.1, dictUpsert r.1 name r.2.1⟩
        else ⟨OutcomeKind.sendFailed, r.2.2.1, r.1⟩
      else ⟨OutcomeKind.sortError, [], st⟩

/-- The diff step of the variant run_target (check_pages.py.py lines 130 to
139): filter by the known set, return early when nothing is new, else sort
ascending by the isdigit-dispatched key (undefined or mixed keys raise). -/
def diffStep (items : List Item) (known : KnownList) : Except Unit (List Item) :=
  let new_items := items.filter (fun it => decide (it.item_id ∉ known))
  if new_items.isEmpty then Except.ok []
  else if new_items.all (fun it => (pyKey it.item_id).isSome) then
    if new_items.any (fun it => pyIsDigit it.item_id) &&
        new_items.any (fun it => !pyIsDigit it.item_id) then Except.error ()
    else Except.ok (sSort keyAscB new_items)
  else Except.error ()

/-- How main can fail: the RuntimeError raised on an empty target list
before any source runs, or an exception that escaped the source loop
because the telegram_send of the error report inside the except handler
itself raised. -/
inductive MainErr where
  | configError
  | uncaughtError
deriving DecidableEq

/-- The source loop of main (check_pages.py lines 293 to 299): run is the
per-target work run_target, returning the state afterwards (mutations up to
a raised exception persist) and whether an exception was raised.  A raised
exception is caught at the loop boundary, where the handler prints and then
calls telegram_send(err_msg) (line 299); warnSend tells whether that send
returns normally (it always does when the credentials are absent, in which
case it only prints), and when it raises instead, the new exception is not
caught: the loop stops and the remaining targets never run.  Returns the
final state, one caught-exception flag per target actually iterated, and
whether the loop ran to completion. -/
def mainGo {τ : Type} (run : τ → StateMap → StateMap × Bool)
    (warnSend : τ → Bool) : List τ → StateMap → StateMap × List Bool × Bool
  | [], st => (st, [], true)
  | t :: ts, st =>
    let r := run t st
    if r.2 = false then
      let rest := mainGo run warnSend ts r.1
      (rest.1, false :: rest.2.1, rest.2.2)
    else if warnSend t then
      let rest := mainGo run warnSend ts r.1
      (rest.1, true :: rest.2.1, rest.2.2)
    else (r.1, [true], false)

/-- main (check_pages.py lines 285 to 301): an empty target list raises
RuntimeError before any source runs; otherwise the targets run in the
source loop, and save_state runs exactly once afterwards, unless an
exception escaped the loop through the except handler, in which case it
propagates out of main and the state is never persisted. -/
def mainModel {τ : Type} (run : τ → StateMap → StateMap × Bool)
    (warnSend : τ → Bool) (targets : List τ) (st0 : StateMap) :
    Except MainErr (StateMap × List Bool) :=
  if targets.isEmpty then Except.error MainErr.configError
  else
    let r := mainGo run warnSend targets st0
    if r.2.2 then Except.ok (save_state r.1, r.2.1)
    else Except.error MainErr.uncaughtError

/-! Lemmas about the stable sort. -/

theorem sInsert_perm (le : α → α → Bool) (a : α) (l : List α) :
    (sInsert le a l).Perm (a :: l) := by
  induction l with
  | nil => exact List.Perm.refl _
  | cons b l ih =>
    by_cases h : le b a = true
    · simpa [sInsert, h] using (ih.cons b).trans (List.Perm.swap a b l)
    · simp [sInsert, h]

theorem mem_sInsert (le : α → α → Bool) (a : α) (l : List α) (x : α) :
    x ∈ sInsert le a l ↔ x = a ∨ x ∈ l := by
  rw [(sInsert_perm le a l).mem_iff]; exact List.mem_cons

theorem sInsert_pairwise (le : α → α → Bool)
    (htrans : ∀ a b c, le a b = true → le b c = true → le a c = true)
    (htot : ∀ a b, le a b = true ∨ le b a = true) (a : α) {l : List α}
    (h : l.Pairwise (fun x y => le x y = true)) :
    (sInsert le a l).Pairwise (fun x y => le x y = true) := by
  induction l with
  | nil => simp [sInsert]
  | cons b l ih =>
    rcases List.pairwise_cons.mp h with ⟨hb, hl⟩
    by_cases hba : le b a = true
    · rw [show sInsert le a (b :: l) = b :: sInsert le a l from by simp [sInsert, hba]]
      refine List.pairwise_cons.mpr ⟨?_, ih hl⟩
      intro y hy
      rcases (mem_sInsert le a l y).mp hy with rfl | hyl
      · exact hba
      · exact hb y hyl
    · rw [show sInsert le a (b :: l) = a :: b :: l from by simp [sInsert, hba]]
      have hab : le a b = true := (htot a b).resolve_right hba
      refine List.pairwise_cons.mpr ⟨?_, h⟩
      intro y hy
      rcases List.mem_cons.mp hy with rfl | hyl
      · exact hab
      · exact htrans a b y hab (hb y hyl)

theorem sSortGo_perm (le : α → α → Bool) (l : List α) : ∀ acc : List α,
    (l.foldl (fun acc a => sInsert le a acc) acc).Perm (acc ++ l) := by
  induction l with
  | nil => intro acc; simp
  | cons a l ih =>
    intro acc
    simp only [List.foldl_cons]
    have h1 := ih (sInsert le a acc)
    have h2 : ((sInsert le a acc) ++ l).Perm ((a :: acc) ++ l) :=
      (sInsert_perm le a acc).append_right l
    have h3 : ((a :: acc) ++ l).Perm (acc ++ a :: l) := by
      simpa using (@List.perm_middle _ a acc l).symm
    exact (h1.trans h2).trans h3

theorem sSort_perm (le : α → α → Bool) (l : List α) : (sSort le l).Perm l := by
  simpa using sSortGo_perm le l []

theorem mem_sSort (le : α → α → Bool) (l : List α) (x : α) :
    x ∈ sSort le l ↔ x ∈ l := (sSort_perm le l).mem_iff

theorem sSortGo_pairwise (le : α → α → Bool)
    (htrans : ∀ a b c, le a b = true → le b c = true → le a c = true)
    (htot : ∀ a b, le a b = true ∨ le b a = true) (l : List α) :
    ∀ acc : List α, acc.Pairwise (fun x y => le x y = true) →
      (l.foldl (fun acc a => sInsert le a acc) acc).Pairwise
        (fun x y => le x y = true) := by
  induction l with
  | nil => intro acc hacc; simpa using hacc
  | cons a l ih =>
    intro acc hacc
    simp only [List.foldl_cons]
    exact ih _ (sInsert_pairwise le htrans htot a hacc)

theorem sSort_pairwise (le : α → α → Bool)
    (htrans : ∀ a b c, le a b = true → le b c = true → le a c = true)
    (htot : ∀ a b, le a b = true ∨ le b a = true) (l : List α) :
    (sSort le l).Pairwise (fun x y => le x y = true) :=
  sSortGo_pairwise le htrans htot l [] List.Pairwise.nil

/-! The comparison orders are total and transitive. -/

theorem strLe_total (a : Str) : ∀ b : Str, strLe a b = true ∨ strLe b a = true := by
  induction a with
  | nil => intro b; left; simp [strLe]
  | cons x xs ih =>
    intro b
    cases b with
    | nil => right; simp [strLe]
    | cons y ys =>
      rcases lt_trichotomy x y with h | h | h
      · left; simp [strLe, h]
      · subst h
        rcases ih ys with h' | h'
        · left; simpa [strLe, lt_irrefl] using h'
        · right; simpa [strLe, lt_irrefl] using h'
      · right; simp [strLe, h]

theorem strLe_trans (a : Str) : ∀ b c : Str,
    strLe a b = true → strLe b c = true → strLe a c = true := by
  induction a with
  | nil => intro b c _ _; cases c <;> simp [strLe]
  | cons x xs ih =>
    intro b c h1 h2
    cases b with
    | nil => simp [strLe] at h1
    | cons y ys =>
      cases c with
      | nil => simp [strLe] at h2
      | cons z zs =>
        by_cases hxy : x < y
        · by_cases hyz : y < z
          · simp [strLe, lt_trans hxy hyz]
          · by_cases hzy : z < y
            · simp [strLe, hyz, hzy] at h2
            · have hyzeq : y = z := le_antisymm (le_of_not_lt hzy) (le_of_not_lt hyz)
              subst hyzeq
              simp [strLe, hxy]
        · by_cases hyx : y < x
          · simp [strLe, hxy, hyx] at h1
          · have hxyeq : x = y := le_antisymm (le_of_not_lt hyx) (le_of_not_lt hxy)
            subst hxyeq
            simp only [strLe, if_neg (lt_irrefl x)] at h1
            by_cases hxz : x < z
            · simp [strLe, hxz]
            · by_cases hzx : z < x
              · simp [strLe, hxz, hzx] at h2
              · have hxzeq : x = z := le_antisymm (le_of_not_lt hzx) (le_of_not_lt hxz)
                subst hxzeq
                simp only [strLe, if_neg (lt_irrefl x)] at h2 ⊢
                exact ih ys zs h1 h2

theorem keyLeB_total (a b : Sum Nat Str) : keyLeB a b = true ∨ keyLeB b a = true := by
  cases a with
  | inl m =>
    cases b with
    | inl n => simpa [keyLeB] using Nat.le_total m n
    | inr s => left; simp [keyLeB]
  | inr s =>
    cases b with
    | inl n => right; simp [keyLeB]
    | inr t => simpa [keyLeB] using strLe_total s t

theorem keyLeB_trans (a b c : Sum Nat Str) :
    keyLeB a b = true → keyLeB b c = true → keyLeB a c = true := by
  cases a <;> cases b <;> cases c <;> simp [keyLeB] <;> intros <;>
    first
      | omega
      | exact strLe_trans _ _ _ (by assumption) (by assumption)

theorem intAscB_trans (a b c : Item) :
    intAscB a b = true → intAscB b c = true → intAscB a c = true := by
  simp [intAscB]; omega

theorem intAscB_total (a b : Item) : intAscB a b = true ∨ intAscB b a = true := by
  simpa [intAscB] using Nat.le_total (numOf a) (numOf b)

theorem intDescB_trans (a b c : Item) :
    intDescB a b = true → intDescB b c = true → intDescB a c = true := by
  simp [intDescB]; omega

theorem intDescB_total (a b : Item) : intDescB a b = true ∨ intDescB b a = true := by
  simpa [intDescB] using Nat.le_total (numOf b) (numOf a)

theorem keyAscB_trans (a b c : Item) :
    keyAscB a b = true → keyAscB b c = true → keyAscB a c = true :=
  fun h1 h2 => keyLeB_trans _ _ _ h1 h2

theorem keyAscB_total (a b : Item) : keyAscB a b = true ∨ keyAscB b a = true :=
  keyLeB_total _ _

theorem keyDescB_trans (a b c : Item) :
    keyDescB a b = true → keyDescB b c = true → keyDescB a c = true :=
  fun h1 h2 => keyLeB_trans _ _ _ h2 h1

theorem keyDescB_total (a b : Item) : keyDescB a b = true ∨ keyDescB b a = true :=
  keyLeB_total (keyB b) (keyB a)

theorem strDescB_trans (a b c : Str) :
    strDescB a b = true → strDescB b c = true → strDescB a c = true :=
  fun h1 h2 => strLe_trans _ _ _ h2 h1

theorem strDescB_total (a b : Str) : strDescB a b = true ∨ strDescB b a = true :=
  strLe_total b a

/-! Lemmas about the dict model. -/

theorem alookup_dictUpsert {β : Type} (d : List (Str × β)) (k : Str) (v : β)
    (k' : Str) :
    alookup (dictUpsert d k v) k' = if k = k' then some v else alookup d k' := by
  induction d with
  | nil => simp [dictUpsert, alookup]
  | cons p d ih =>
    obtain ⟨pk, pv⟩ := p
    by_cases hpk : pk = k
    · subst hpk
      simp only [dictUpsert, if_pos rfl, alookup]
      by_cases h' : pk = k'
      · subst h'; simp [alookup]
      · simp [alookup, h']
    · simp only [dictUpsert, if_neg hpk, alookup]
      by_cases h' : pk = k'
      · subst h'
        have : ¬ k = pk := fun h => hpk h.symm
        simp [this]
      · simp [h', ih]

theorem mem_dkeys_dictUpsert {β : Type} {d : List (Str × β)} {k : Str} {v : β}
    {x : Str} (h : x ∈ dkeys (dictUpsert d k v)) : x ∈ dkeys d ∨ x = k := by
  induction d with
  | nil => simpa [dictUpsert, dkeys] using h
  | cons p d ih =>
    by_cases hpk : p.1 = k
    · obtain ⟨pk, pv⟩ := p
      subst hpk
      simp only [dictUpsert, if_pos rfl, dkeys, List.map_cons] at h
      rcases List.mem_cons.mp h with rfl | h'
      · right; rfl
      · left; exact List.mem_cons_of_mem _ h'
    · obtain ⟨pk, pv⟩ := p
      simp only [dictUpsert, if_neg hpk, dkeys, List.map_cons] at h
      rcases List.mem_cons.mp h with rfl | h'
      · left; exact List.mem_cons_self _ _
      · rcases ih h' with h'' | h''
        · left; exact List.mem_cons_of_mem _ h''
        · right; exact h''

theorem nodup_dkeys_dictUpsert {β : Type} (d : List (Str × β)) (k : Str) (v : β)
    (h : (dkeys d).Nodup) : (dkeys (dictUpsert d k v)).Nodup := by
  induction d with
  | nil => simp [dictUpsert, dkeys]
  | cons p d ih =>
    obtain ⟨pk, pv⟩ := p
    rcases List.nodup_cons.mp h with ⟨hpm, hd⟩
    by_cases hpk : pk = k
    · subst hpk
      simp only [dictUpsert, if_pos rfl, dkeys, List.map_cons]
      exact List.nodup_cons.mpr ⟨hpm, hd⟩
    · simp only [dictUpsert, if_neg hpk, dkeys, List.map_cons]
      refine List.nodup_cons.mpr ⟨?_, ih hd⟩
      intro hmem
      rcases mem_dkeys_dictUpsert hmem with h' | h'
      · exact hpm h'
      · exact hpk h'

theorem nodup_dkeys_foldl {β : Type} (ps : List (Str × β)) :
    ∀ d : List (Str × β), (dkeys d).Nodup →
      (dkeys (ps.foldl (fun d p => dictUpsert d p.1 p.2) d)).Nodup := by
  induction ps with
  | nil => intro d h; simpa using h
  | cons p ps ih =>
    intro d h
    simp only [List.foldl_cons]
    exact ih _ (nodup_dkeys_dictUpsert d p.1 p.2 h)

theorem nodup_dkeys_dictOfPairs {β : Type} (ps : List (Str × β)) :
    (dkeys (dictOfPairs ps)).Nodup :=
  nodup_dkeys_foldl ps [] (by simp [dkeys])

theorem mem_dictUpsert {β : Type} {d : List (Str × β)} {k : Str} {v : β}
    {q : Str × β} (h : q ∈ dictUpsert d k v) : q ∈ d ∨ q = (k, v) := by
  induction d with
  | nil => simpa [dictUpsert] using h
  | cons p d ih =>
    obtain ⟨pk, pv⟩ := p
    by_cases hpk : pk = k
    · subst hpk
      simp only [dictUpsert, if_pos rfl] at h
      rcases List.mem_cons.mp h with rfl | h'
      · right; rfl
      · left; exact List.mem_cons_of_mem _ h'
    · simp only [dictUpsert, if_neg hpk] at h
      rcases List.mem_cons.mp h with rfl | h'
      · left; exact List.mem_cons_self _ _
      · rcases ih h' with h'' | h''
        · left; exact List.mem_cons_of_mem _ h''
        · right; exact h''

theorem mem_foldl_upsert {β : Type} (ps : List (Str × β)) :
    ∀ (d : List (Str × β)) (q : Str × β),
      q ∈ ps.foldl (fun d p => dictUpsert d p.1 p.2) d → q ∈ d ∨ q ∈ ps := by
  induction ps with
  | nil => intro d q h; left; simpa using h
  | cons p ps ih =>
    intro d q h
    simp only [List.foldl_cons] at h
    rcases ih _ q h with h' | h'
    · rcases mem_dictUpsert h' with h'' | h''
      · left; exact h''
      · right; subst h''; exact List.mem_cons_self _ _
    · right; exact List.mem_cons_of_mem _ h'

theorem mem_dictOfPairs {β : Type} {ps : List (Str × β)} {q : Str × β}
    (h : q ∈ dictOfPairs ps) : q ∈ ps := by
  rcases mem_foldl_upsert ps [] q h with h' | h'
  · simp at h'
  · exact h'

theorem alookup_append {β : Type} (xs ys : List (Str × β)) (k : Str) :
    alookup (xs ++ ys) k = (alookup xs k).or (alookup ys k) := by
  induction xs with
  | nil => simp [alookup]
  | cons p xs ih =>
    obtain ⟨pk, pv⟩ := p
    by_cases h : pk = k
    · simp [alookup, h]
    · simp [alookup, h, ih]

theorem lastAssoc_cons {β : Type} (p : Str × β) (ps : List (Str × β)) (k : Str) :
    lastAssoc (p :: ps) k =
      (lastAssoc ps k).or (if p.1 = k then some p.2 else none) := by
  simp only [lastAssoc, List.reverse_cons, alookup_append]
  rfl

theorem alookup_foldl_upsert {β : Type} (ps : List (Str × β)) :
    ∀ (d : List (Str × β)) (k : Str),
      alookup (ps.foldl (fun d p => dictUpsert d p.1 p.2) d) k =
        (lastAssoc ps k).or (alookup d k) := by
  induction ps with
  | nil => intro d k; simp [lastAssoc, alookup]
  | cons p ps ih =>
    intro d k
    simp only [List.foldl_cons]
    rw [ih, alookup_dictUpsert, lastAssoc_cons]
    cases lastAssoc ps k with
    | some v => simp [Option.or]
    | none =>
      by_cases h : p.1 = k
      · simp [Option.or, h]
      · have : ¬ p.1 = k := h
        simp [Option.or, h]

theorem alookup_dictOfPairs {β : Type} (ps : List (Str × β)) (k : Str) :
    alookup (dictOfPairs ps) k = lastAssoc ps k := by
  have := alookup_foldl_upsert ps [] k
  simpa [alookup, dictOfPairs] using this

theorem alookup_of_mem_nodup {β : Type} {d : List (Str × β)} {k : Str} {v : β}
    (h : (k, v) ∈ d) (hn : (dkeys d).Nodup) : alookup d k = some v := by
  induction d with
  | nil => simp at h
  | cons p d ih =>
    obtain ⟨pk, pv⟩ := p
    rcases List.nodup_cons.mp hn with ⟨hpm, hd⟩
    rcases List.mem_cons.mp h with heq | h'
    · rw [show pk = k from (Prod.mk.injEq _ _ _ _ |>.mp heq.symm).1]
      simp [alookup, (Prod.mk.injEq _ _ _ _ |>.mp heq.symm).2]
    · have hk : k ∈ dkeys d := List.mem_map_of_mem Prod.fst h'
      have hpk : ¬ pk = k := fun he => hpm (he ▸ hk)
      simp [alookup, hpk, ih h' hd]

/-! Facts about pyInt, pyIsDigit and the comparison keys. -/

theorem pyInt_isSome_of_decimal {s : Str} (h1 : s ≠ [])
    (h2 : s.all Char.isDigit = true) : (pyInt s).isSome = true := by
  unfold pyInt
  rw [if_pos ⟨h1, h2⟩]
  rfl

theorem pyIsDigit_of_decimal {s : Str} (h1 : s ≠ [])
    (h2 : s.all Char.isDigit = true) : pyIsDigit s = true := by
  cases s with
  | nil => exact absurd rfl h1
  | cons c cs =>
    simp only [pyIsDigit, List.isEmpty_cons, Bool.not_false, Bool.true_and]
    rw [List.all_eq_true] at h2 ⊢
    intro x hx
    simp [pyIsDigitChar, h2 x hx]

theorem pyInt_none_of_not_pyIsDigit {s : Str} (h : pyIsDigit s = false) :
    pyInt s = none := by
  unfold pyInt
  rw [if_neg]
  rintro ⟨h1, h2⟩
  rw [pyIsDigit_of_decimal h1 h2] at h
  simp at h

theorem keyOf_of_int_some {s : Str} {n : Nat} (h : pyInt s = some n) :
    keyOf s = Sum.inl n := by
  unfold keyOf
  rw [h]

theorem keyB_eq_keyOf {it : Item} (h : (pyKey it.item_id).isSome = true) :
    keyB it = keyOf it.item_id := by
  by_cases hd : pyIsDigit it.item_id = true
  · have hk : pyKey it.item_id = (pyInt it.item_id).map Sum.inl := by
      rw [pyKey, if_pos hd]
    rw [hk] at h
    rcases hint : pyInt it.item_id with _ | n
    · rw [hint] at h; simp at h
    · unfold keyB
      rw [hk, hint, keyOf_of_int_some hint]
      rfl
  · have hfalse : pyIsDigit it.item_id = false := by
      cases hx : pyIsDigit it.item_id
      · rfl
      · exact absurd hx hd
    have hk : pyKey it.item_id = some (Sum.inr it.item_id) := by
      rw [pyKey, if_neg (by simp [hfalse])]
    unfold keyB keyOf
    rw [hk, pyInt_none_of_not_pyIsDigit hfalse]
    rfl

theorem pairwise_keyOf_of_intDesc {l : List Item}
    (hall : ∀ it ∈ l, (pyInt it.item_id).isSome = true)
    (hp : l.Pairwise (fun a b => intDescB a b = true)) :
    l.Pairwise (fun a b => keyLeB (keyOf b.item_id) (keyOf a.item_id) = true) := by
  refine hp.imp_of_mem ?_
  intro a b ha hb hab
  rcases Option.isSome_iff_exists.mp (hall a ha) with ⟨m, hm⟩
  rcases Option.isSome_iff_exists.mp (hall b hb) with ⟨n, hn⟩
  rw [keyOf_of_int_some hm, keyOf_of_int_some hn]
  have ha' : numOf a = m := by simp [numOf, hm]
  have hb' : numOf b = n := by simp [numOf, hn]
  simp only [keyLeB]
  rw [← ha', ← hb']
  simpa [intDescB] using hab

theorem pairwise_keyOf_of_keyDesc {l : List Item}
    (hall : ∀ it ∈ l, (pyKey it.item_id).isSome = true)
    (hp : l.Pairwise (fun a b => keyDescB a b = true)) :
    l.Pairwise (fun a b => keyLeB (keyOf b.item_id) (keyOf a.item_id) = true) := by
  refine hp.imp_of_mem ?_
  intro a b ha hb hab
  rw [← keyB_eq_keyOf (hall a ha), ← keyB_eq_keyOf (hall b hb)]
  exact hab

/-! Properties of the candidate sequences each strategy produces. -/

theorem rowCandidate_props {ujoin : Str → Str → Str} {tu fu : Str} {tr : Row}
    {q : Str × Item} (h : rowCandidate ujoin tu fu tr = some q) :
    q.2.item_id = q.1 ∧ q.2.title ≠ [] ∧ pyIsDigit q.1 = true := by
  unfold rowCandidate at h
  rcases htds : tr.tds with _ | ⟨no, rest⟩ <;> rw [htds] at h <;> dsimp only at h
  · exact absurd h (by simp)
  · by_cases hd : pyIsDigit no = false
    · rw [if_pos hd] at h; exact absurd h (by simp)
    · rw [if_neg hd] at h
      rcases ha : tr.firstA with _ | a <;> rw [ha] at h <;> dsimp only at h
      · exact absurd h (by simp)
      · by_cases ht : a.text = []
        · rw [if_pos ht] at h; exact absurd h (by simp)
        · rw [if_neg ht] at h
          have hq := Option.some.inj h
          subst hq
          refine ⟨rfl, ht, ?_⟩
          cases hx : pyIsDigit no
          · exact absurd hx hd
          · rfl

theorem anchorCandidate_props {ujoin : Str → Str → Str} {tu fu : Str}
    {a : Anchor} {q : Str × Item}
    (h : anchorCandidate ujoin tu fu a = some q) :
    q.2.item_id = q.1 ∧ q.2.title ≠ [] ∧ pyIsDigit q.1 = true := by
  unfold anchorCandidate at h
  by_cases ht : a.text = []
  · rw [if_pos ht] at h; exact absurd h (by simp)
  · rw [if_neg ht] at h
    rcases hp : a.parentTds with _ | tds <;> rw [hp] at h <;> dsimp only at h
    · exact absurd h (by simp)
    · rcases htds : tds with _ | ⟨no, rest⟩ <;> rw [htds] at h <;> dsimp only at h
      · exact absurd h (by simp)
      · by_cases hd : pyIsDigit no = false
        · rw [if_pos hd] at h; exact absurd h (by simp)
        · rw [if_neg hd] at h
          have hq := Option.some.inj h
          subst hq
          refine ⟨rfl, ht, ?_⟩
          cases hx : pyIsDigit no
          · exact absurd hx hd
          · rfl

theorem linkCandidate_props {ujoin : Str → Str → Str} {fu : Str}
    {extractId : Str → Option Str} {a : Anchor} {q : Str × Item}
    (h : linkCandidate ujoin fu extractId a = some q) :
    q.2.item_id = q.1 ∧ q.2.title ≠ [] ∧ ∃ href, extractId href = some q.1 := by
  unfold linkCandidate at h
  rcases hh : a.href with _ | rawHref <;> rw [hh] at h <;> dsimp only at h
  · exact absurd h (by simp)
  · by_cases ht : a.text = [] ∨ a.text.length < 3
    · rw [if_pos ht] at h; exact absurd h (by simp)
    · rw [if_neg ht] at h
      rcases hext : extractId (pyStrip rawHref) with _ | id <;> rw [hext] at h <;> dsimp only at h
      · exact absurd h (by simp)
      · have hq := Option.some.inj h
        subst hq
        push_neg at ht
        exact ⟨rfl, ht.1, pyStrip rawHref, hext⟩

theorem keyListCandidate_props {ujoin : Str → Str → Str} {keyPat base : Str}
    {a : Anchor} {q : Str × Item}
    (h : keyListCandidate ujoin keyPat base a = some q) :
    q.2.item_id = q.1 ∧ q.2.title ≠ [] := by
  unfold keyListCandidate at h
  rcases hh : a.href with _ | href <;> rw [hh] at h <;> dsimp only at h
  · exact absurd h (by simp)
  · rcases hext : findKeyTail keyPat href with _ | cap <;> rw [hext] at h <;> dsimp only at h
    · exact absurd h (by simp)
    · by_cases ht : a.text = []
      · rw [if_pos ht] at h; exact absurd h (by simp)
      · rw [if_neg ht] at h
        have hq := Option.some.inj h
        subst hq
        exact ⟨rfl, ht⟩

theorem findParamNum_decimal (pname : Str) : ∀ s ds,
    findParamNum pname s = some ds → ds ≠ [] ∧ ds.all Char.isDigit = true := by
  intro s
  induction s with
  | nil => intro ds h; simp [findParamNum] at h
  | cons c rest ih =>
    intro ds h
    rw [findParamNum] at h
    by_cases hc : (c = '?' || c = '&') = true
    · rw [if_pos hc] at h
      rcases hdrop : dropCI pname rest with _ | rest' <;> rw [hdrop] at h <;> dsimp only at h
      · exact ih ds h
      · by_cases hds : rest'.takeWhile Char.isDigit = []
        · rw [if_pos hds] at h; exact ih ds h
        · rw [if_neg hds] at h
          have := Option.some.inj h
          subst this
          refine ⟨hds, ?_⟩
          rw [List.all_eq_true]
          intro x hx
          exact List.mem_takeWhile_imp hx
    · rw [if_neg hc] at h; exact ih ds h

theorem findPathNum_decimal (pathPre : Str) : ∀ s ds,
    findPathNum pathPre s = some ds → ds ≠ [] ∧ ds.all Char.isDigit = true := by
  intro s
  induction s with
  | nil => intro ds h; simp [findPathNum] at h
  | cons c rest ih =>
    intro ds h
    rw [findPathNum] at h
    rcases hdrop : dropLit (pathPre ++ [Char.ofNat 47]) (c :: rest) with _ | rest' <;>
      rw [hdrop] at h
    · exact ih ds h
    · simp only at h
      by_cases hds : rest'.takeWhile Char.isDigit = []
      · rw [if_pos hds] at h; exact ih ds h
      · rw [if_neg hds] at h
        have := Option.some.inj h
        subst this
        refine ⟨hds, ?_⟩
        rw [List.all_eq_true]
        intro x hx
        exact List.mem_takeWhile_imp hx

/-! The deduplicated value list of a dict built from good assignments. -/

theorem dict_values_last (cands : List (Str × Item))
    (hgood : ∀ q ∈ cands, q.2.item_id = q.1) :
    ∀ it ∈ (dictOfPairs cands).map Prod.snd,
      lastAssoc cands it.item_id = some it := by
  intro it hit
  rcases List.mem_map.mp hit with ⟨q, hq, rfl⟩
  have hid : q.2.item_id = q.1 := hgood q (mem_dictOfPairs hq)
  rw [hid, ← alookup_dictOfPairs]
  exact alookup_of_mem_nodup (by simpa using hq) (nodup_dkeys_dictOfPairs cands)

theorem dict_values_nodup (cands : List (Str × Item))
    (hgood : ∀ q ∈ cands, q.2.item_id = q.1) :
    (((dictOfPairs cands).map Prod.snd).map Item.item_id).Nodup := by
  have heq : ((dictOfPairs cands).map Prod.snd).map Item.item_id
      = dkeys (dictOfPairs cands) := by
    rw [List.map_map]
    exact List.map_congr_left (fun q hq => hgood q (mem_dictOfPairs hq))
  rw [heq]
  exact nodup_dkeys_dictOfPairs cands

/-! The final sorted and guarded step of the parsers. -/

theorem finishIntAll_ok_props {cands : List (Str × Item)} {full : List Item}
    (h : finishIntAll cands = Except.ok full) :
    full.Perm ((dictOfPairs cands).map Prod.snd) ∧
      (∀ it ∈ full, (pyInt it.item_id).isSome = true) ∧
      full.Pairwise (fun a b => intDescB a b = true) := by
  unfold finishIntAll at h
  by_cases hall : ((dictOfPairs cands).map Prod.snd).all
      (fun it => (pyInt it.item_id).isSome) = true
  · rw [if_pos hall] at h
    have hfull := Except.ok.inj h
    subst hfull
    refine ⟨sSort_perm _ _, ?_, ?_⟩
    · intro it hit
      exact List.all_eq_true.mp hall it ((mem_sSort _ _ it).mp hit)
    · exact sSort_pairwise intDescB intDescB_trans intDescB_total _
  · rw [if_neg hall] at h
    simp at h

theorem finishKeyAll_ok_props {cands : List (Str × Item)} {full : List Item}
    (h : finishKeyAll cands = Except.ok full) :
    full.Perm ((dictOfPairs cands).map Prod.snd) ∧
      (∀ it ∈ full, (pyKey it.item_id).isSome = true) ∧
      full.Pairwise (fun a b => keyDescB a b = true) := by
  unfold finishKeyAll at h
  by_cases hall : ((dictOfPairs cands).map Prod.snd).all
      (fun it => (pyKey it.item_id).isSome) = true
  · rw [if_pos hall] at h
    by_cases hmix : (((dictOfPairs cands).map Prod.snd).any
          (fun it => pyIsDigit it.item_id) &&
        ((dictOfPairs cands).map Prod.snd).any
          (fun it => !pyIsDigit it.item_id)) = true
    · rw [if_pos hmix] at h; simp at h
    · rw [if_neg hmix] at h
      have hfull := Except.ok.inj h
      subst hfull
      refine ⟨sSort_perm _ _, ?_, ?_⟩
      · intro it hit
        exact List.all_eq_true.mp hall it ((mem_sSort _ _ it).mp hit)
      · exact sSort_pairwise keyDescB keyDescB_trans keyDescB_total _
  · rw [if_neg hall] at h
    simp at h

/-! Per-strategy facts about the assignment sequences. -/

theorem strategyCands_good (s : Strategy) (ujoin : Str → Str → Str)
    (p : PageInput) :
    ∀ q ∈ strategyCands s ujoin p, q.2.item_id = q.1 ∧ q.2.title ≠ [] := by
  intro q hq
  cases s
  case listNumberId =>
    simp only [strategyCands] at hq
    unfold candListNumberId at hq
    by_cases hph : (p.rows.filterMap
        (rowCandidate ujoin p.target_url p.final_url)).isEmpty = true
    · rw [if_pos hph] at hq
      rcases List.mem_filterMap.mp hq with ⟨a, _, ha⟩
      rcases anchorCandidate_props ha with ⟨h1, h2, _⟩
      exact ⟨h1, h2⟩
    · rw [if_neg hph] at hq
      rcases List.mem_filterMap.mp hq with ⟨tr, _, htr⟩
      rcases rowCandidate_props htr with ⟨h1, h2, _⟩
      exact ⟨h1, h2⟩
  case linkWithKey =>
    simp only [strategyCands] at hq
    rcases List.mem_filterMap.mp hq with ⟨a, _, ha⟩
    rcases linkCandidate_props ha with ⟨h1, h2, _⟩
    exact ⟨h1, h2⟩
  case linkWithPathNumber =>
    simp only [strategyCands] at hq
    rcases List.mem_filterMap.mp hq with ⟨a, _, ha⟩
    rcases linkCandidate_props ha with ⟨h1, h2, _⟩
    exact ⟨h1, h2⟩
  case linkWithNumParam =>
    simp only [strategyCands] at hq
    rcases List.mem_filterMap.mp hq with ⟨a, _, ha⟩
    rcases linkCandidate_props ha with ⟨h1, h2, _⟩
    exact ⟨h1, h2⟩
  case keyList =>
    simp only [strategyCands] at hq
    rcases List.mem_filterMap.mp hq with ⟨a, _, ha⟩
    exact keyListCandidate_props ha

theorem extractAll_eq_finish (s : Strategy) (ujoin : Str → Str → Str)
    (p : PageInput) :
    extractAll s ujoin p =
      (match s with
        | Strategy.keyList => finishKeyAll (strategyCands s ujoin p)
        | _ => finishIntAll (strategyCands s ujoin p)) := by
  cases s <;> rfl

/-! The combined correctness core of extraction, shared by the claims about
titles, id uniqueness, last-wins, ordering and the cap. -/

theorem extractAll_ok_core {s : Strategy} {ujoin : Str → Str → Str}
    {p : PageInput} {full : List Item}
    (h : extractAll s ujoin p = Except.ok full) :
    (∀ it ∈ full, it.title ≠ []) ∧ (full.map Item.item_id).Nodup ∧
      (∀ it ∈ full, lastAssoc (strategyCands s ujoin p) it.item_id = some it) ∧
      full.Pairwise (fun a b => keyLeB (keyOf b.item_id) (keyOf a.item_id) = true) := by
  have hgood : ∀ q ∈ strategyCands s ujoin p, q.2.item_id = q.1 :=
    fun q hq => (strategyCands_good s ujoin p q hq).1
  have htitle : ∀ q ∈ strategyCands s ujoin p, q.2.title ≠ [] :=
    fun q hq => (strategyCands_good s ujoin p q hq).2
  rw [extractAll_eq_finish] at h
  have core : full.Perm ((dictOfPairs (strategyCands s ujoin p)).map Prod.snd) ∧
      full.Pairwise (fun a b => keyLeB (keyOf b.item_id) (keyOf a.item_id) = true) := by
    cases s
    case keyList =>
      rcases finishKeyAll_ok_props h with ⟨hperm, hall, hpair⟩
      exact ⟨hperm, pairwise_keyOf_of_keyDesc hall hpair⟩
    all_goals
      rcases finishIntAll_ok_props h with ⟨hperm, hall, hpair⟩
      exact ⟨hperm, pairwise_keyOf_of_intDesc hall hpair⟩
  rcases core with ⟨hperm, hpair⟩
  refine ⟨?_, ?_, ?_, hpair⟩
  · intro it hit
    rcases List.mem_map.mp (hperm.mem_iff.mp hit) with ⟨q, hq, rfl⟩
    exact htitle q (mem_dictOfPairs hq)
  · exact ((hperm.map Item.item_id).nodup_iff).mpr
      (dict_values_nodup (strategyCands s ujoin p) hgood)
  · intro it hit
    exact dict_values_last (strategyCands s ujoin p) hgood it (hperm.mem_iff.mp hit)

/-! Lemmas about the known-set and state-map operations. -/

theorem mem_addKnown_of_mem {seen : KnownList} {x id : Str} (h : x ∈ seen) :
    x ∈ addKnown seen id := by
  unfold addKnown
  split
  · exact h
  · exact List.mem_append_left _ h

theorem mem_addKnown_self (seen : KnownList) (id : Str) : id ∈ addKnown seen id := by
  unfold addKnown
  split
  · assumption
  · exact List.mem_append_right _ (List.mem_singleton.mpr rfl)

theorem addAll_cons (seen : KnownList) (it : Item) (xs : List Item) :
    addAll seen (it :: xs) = addAll (addKnown seen it.item_id) xs := rfl

theorem mem_addAll_of_mem {x : Str} (items : List Item) :
    ∀ seen : KnownList, x ∈ seen → x ∈ addAll seen items := by
  induction items with
  | nil => intro seen h; exact h
  | cons it rest ih =>
    intro seen h
    rw [addAll_cons]
    exact ih _ (mem_addKnown_of_mem h)

theorem mem_addAll_of_mem_items {it : Item} (items : List Item)
    (h : it ∈ items) : ∀ seen : KnownList, it.item_id ∈ addAll seen items := by
  induction items with
  | nil => simp at h
  | cons hd rest ih =>
    intro seen
    rcases List.mem_cons.mp h with rfl | h'
    · rw [addAll_cons]
      exact mem_addAll_of_mem rest _ (mem_addKnown_self seen it.item_id)
    · rw [addAll_cons]
      exact ih h' _

theorem dictUpsert_dictUpsert {β : Type} (d : List (Str × β)) (k : Str) (v w : β) :
    dictUpsert (dictUpsert d k v) k w = dictUpsert d k w := by
  induction d with
  | nil => simp [dictUpsert]
  | cons p d ih =>
    obtain ⟨pk, pv⟩ := p
    by_cases hpk : pk = k
    · subst hpk
      simp [dictUpsert]
    · simp [dictUpsert, hpk, ih]

theorem alookup_save_state (st : StateMap) (k : Str) :
    alookup (save_state st) k =
      (alookup st k).map (fun v => (sSort strDescB v).take 3000) := by
  induction st with
  | nil => simp [save_state, alookup]
  | cons p st ih =>
    obtain ⟨pk, pv⟩ := p
    by_cases hpk : pk = k
    · subst hpk
      simp [save_state, alookup]
    · simpa [save_state, alookup, hpk] using ih

theorem mem_take_sort_of_le {v : KnownList} (h : v.length ≤ 3000) {x : Str}
    (hx : x ∈ v) : x ∈ (sSort strDescB v).take 3000 := by
  rw [List.take_of_length_le (by rw [(sSort_perm strDescB v).length_eq]; exact h)]
  exact (mem_sSort _ _ _).mpr hx

/-! The Notifying loop, solved in closed form. -/

theorem notifyGo_eq (send : Item → Bool) (name : Str) (aliased : Bool) :
    ∀ (l : List Item) (st : StateMap) (seen : KnownList),
      notifyGo send name aliased l st seen =
        ((if aliased = true ∧ l.takeWhile send ≠ [] then
            dictUpsert st name (addAll seen (l.takeWhile send)) else st),
          addAll seen (l.takeWhile send), l.takeWhile send, l.all send) := by
  intro l
  induction l with
  | nil =>
    intro st seen
    simp [notifyGo, addAll]
  | cons it rest ih =>
    intro st seen
    by_cases hs : send it = true
    · have htw : (it :: rest).takeWhile send = it :: rest.takeWhile send := by
        simp [List.takeWhile_cons, hs]
      rw [show notifyGo send name aliased (it :: rest) st seen =
          (let seen' := addKnown seen it.item_id
           let st' := if aliased then dictUpsert st name seen' else st
           let r := notifyGo send name aliased rest st' seen'
           (r.1, r.2.1, it :: r.2.2.1, r.2.2.2)) from by
        simp [notifyGo, hs]]
      simp only [ih, htw]
      by_cases hal : aliased = true
      · subst hal
        by_cases htwr : rest.takeWhile send = []
        · simp [htwr, addAll_cons, addAll, List.all_cons, hs]
        · simp [htwr, addAll_cons, List.all_cons, hs, dictUpsert_dictUpsert]
      · have hal' : aliased = false := by
          cases aliased
          · rfl
          · exact absurd rfl hal
        subst hal'
        simp [addAll_cons, List.all_cons, hs]
    · have htw : (it :: rest).takeWhile send = [] := by
        simp [List.takeWhile_cons, hs]
      rw [show notifyGo send name aliased (it :: rest) st seen = (st, seen, [], false)
        from by simp [notifyGo, hs]]
      simp [htw, addAll, List.all_cons, hs]

/-! When every error-report send returns normally, the main loop completes
with one caught-exception flag per target. -/

theorem mainGo_complete {τ : Type} (run : τ → StateMap → StateMap × Bool)
    (warnSend : τ → Bool) :
    ∀ (ts : List τ), (∀ t ∈ ts, warnSend t = true) → ∀ st : StateMap,
      (mainGo run warnSend ts st).2.2 = true ∧
        ((mainGo run warnSend ts st).2.1).length = ts.length := by
  intro ts
  induction ts with
  | nil => intro _ st; simp [mainGo]
  | cons t ts ih =>
    intro hws st
    have hrest := ih (fun u hu => hws u (List.mem_cons_of_mem t hu))
    by_cases hr : (run t st).2 = false
    · simp [mainGo, hr, hrest]
    · simp [mainGo, hr, hws t (List.mem_cons_self t ts), hrest]

/-! More facts about the keys, and the run_target control flow in closed
form. -/

theorem pyInt_isSome_elim {s : Str} (h : (pyInt s).isSome = true) :
    s ≠ [] ∧ s.all Char.isDigit = true := by
  by_cases hc : s ≠ [] ∧ s.all Char.isDigit = true
  · exact hc
  · rw [pyInt, if_neg hc] at h
    simp at h

theorem pyKey_isSome_of_int_isSome {s : Str} (h : (pyInt s).isSome = true) :
    (pyKey s).isSome = true := by
  unfold pyKey
  by_cases hd : pyIsDigit s = true
  · rw [if_pos hd]
    rcases Option.isSome_iff_exists.mp h with ⟨n, hn⟩
    rw [hn]
    rfl
  · rw [if_neg hd]
    rfl

theorem pyKey_isSome_of_not_digit {s : Str} (h : pyIsDigit s = false) :
    (pyKey s).isSome = true := by
  unfold pyKey
  rw [if_neg (by simp [h])]
  rfl

theorem pairwise_keyOf_of_keyAsc {l : List Item}
    (hall : ∀ it ∈ l, (pyKey it.item_id).isSome = true)
    (hp : l.Pairwise (fun a b => keyAscB a b = true)) :
    l.Pairwise (fun a b => keyLeB (keyOf a.item_id) (keyOf b.item_id) = true) := by
  refine hp.imp_of_mem ?_
  intro a b ha hb hab
  rw [← keyB_eq_keyOf (hall a ha), ← keyB_eq_keyOf (hall b hb)]
  exact hab

theorem takeWhile_eq_self_of_all {p : α → Bool} {l : List α}
    (h : l.all p = true) : l.takeWhile p = l := by
  induction l with
  | nil => rfl
  | cons a l ih =>
    rw [List.all_cons, Bool.and_eq_true] at h
    simp [List.takeWhile_cons, h.1, ih h.2]

theorem finishIntAll_ok_of_decimal {cands : List (Str × Item)}
    (h : ∀ q ∈ cands, (pyInt q.2.item_id).isSome = true) :
    ∃ l, finishIntAll cands = Except.ok l := by
  unfold finishIntAll
  rw [if_pos ?_]
  · exact ⟨_, rfl⟩
  · rw [List.all_eq_true]
    intro it hit
    rcases List.mem_map.mp hit with ⟨q, hq, rfl⟩
    exact h q (mem_dictOfPairs hq)

theorem run_target_ok_eq (send : Item → Bool) (name : Str) (items : List Item)
    (st : StateMap) :
    run_target send name (Except.ok items) st =
      (let seen : KnownList := (alookup st name).getD []
       let newItems := items.filter (fun it => decide (it.item_id ∉ seen))
       let tw := (newSorted items seen).takeWhile send
       if items.isEmpty then ⟨OutcomeKind.parseWarning, [], st⟩
       else if newItems.isEmpty then ⟨OutcomeKind.noNew, [], st⟩
       else if newItems.all (fun it => (pyInt it.item_id).isSome) then
         if (newSorted items seen).all send then
           ⟨OutcomeKind.committed, tw, dictUpsert st name (addAll seen tw)⟩
         else
           ⟨OutcomeKind.sendFailed, tw,
             if (alookup st name).isSome = true ∧ tw ≠ [] then
               dictUpsert st name (addAll seen tw) else st⟩
       else ⟨OutcomeKind.sortError, [], st⟩) := by
  simp only [run_target, notifyGo_eq]
  split_ifs <;> first | rfl | rw [dictUpsert_dictUpsert]

/-! The claims. -/

/-- Claim C4: a source whose extraction succeeds with zero items ends in the
parse-warning outcome, which is distinct both from a fetch failure and from
the no-new-items outcome, with no new-item notification sent and the state
mapping untouched. -/
theorem C4_parse_warning (send : Item → Bool) (name : Str) (st : StateMap) :
    run_target send name (Except.ok []) st =
        ⟨OutcomeKind.parseWarning, [], st⟩ ∧
      OutcomeKind.parseWarning ≠ OutcomeKind.fetchError ∧
      OutcomeKind.parseWarning ≠ OutcomeKind.noNew := by
  refine ⟨?_, by decide, by decide⟩
  simp [run_target]

/-- Claim C6 as stated is false on the code: the except handler of the
source loop itself calls telegram_send(err_msg), and when that send raises
(credentials configured, POST failing) the new exception is not caught;
with two sources whose runs both raise and a failing error-report send, the
first handler aborts the whole loop, the second source never runs, and
save_state is never reached. -/
theorem C6_counterexample :
    mainModel (fun (_ : Nat) (st : StateMap) => (st, true)) (fun _ => false)
        [0, 1] [] = Except.error MainErr.uncaughtError ∧
      (mainGo (fun (_ : Nat) (st : StateMap) => (st, true)) (fun _ => false)
        [0, 1] []).2.1 = [true] :=
  ⟨by rfl, by rfl⟩

/-- Claim C6 amended: with a non-empty target list, and provided the
error-report send of the except handler returns normally for every target
(in particular whenever the notification credentials are absent, where it
only prints), every per-source exception is caught at the source-iteration
boundary, every target runs (one caught-exception flag per target, whatever
the run function does), and the state is persisted exactly once at the end,
even if every source failed; an empty target list aborts before any source
runs; but when a handler's own send raises, the loop stops, the remaining
sources are skipped, and nothing is persisted (see the counterexample). -/
theorem C6_failure_isolation {τ : Type} (run : τ → StateMap → StateMap × Bool)
    (warnSend : τ → Bool) (targets : List τ) (st0 : StateMap) :
    (targets = [] →
      mainModel run warnSend targets st0 = Except.error MainErr.configError) ∧
    (targets ≠ [] → (∀ t ∈ targets, warnSend t = true) →
      mainModel run warnSend targets st0 =
          Except.ok (save_state (mainGo run warnSend targets st0).1,
            (mainGo run warnSend targets st0).2.1) ∧
        ((mainGo run warnSend targets st0).2.1).length = targets.length) := by
  constructor
  · intro h; subst h; rfl
  · intro h hws
    obtain ⟨hcomp, hlen⟩ := mainGo_complete run warnSend targets hws st0
    refine ⟨?_, hlen⟩
    unfold mainModel
    rw [if_neg (by simpa [List.isEmpty_iff] using h)]
    dsimp only
    rw [if_pos hcomp]

/-- Witness for C6 amended: two sources, both of which raise, with every
error report delivered; both are run, the error is caught for each, and the
capped state is still persisted. -/
theorem C6_failure_isolation_witness :
    mainModel (fun (_ : Nat) (st : StateMap) => (st, true)) (fun _ => true)
        [0, 1] [] =
        Except.ok (save_state
            (mainGo (fun (_ : Nat) (st : StateMap) => (st, true)) (fun _ => true)
              [0, 1] []).1,
          (mainGo (fun (_ : Nat) (st : StateMap) => (st, true)) (fun _ => true)
            [0, 1] []).2.1) ∧
      ((mainGo (fun (_ : Nat) (st : StateMap) => (st, true)) (fun _ => true)
        [0, 1] []).2.1).length = 2 :=
  (C6_failure_isolation (fun _ st => (st, true)) (fun _ => true) [0, 1] []).2
    (by decide) (by decide)

/-- Claim C2 as stated is false on the code: save_state orders each
persisted list by plain string comparison, not by the numeric-if-digits
comparator used for extraction ordering; with known ids 9 and 10 it
persists 9 before 10, which is not descending under the numeric key. -/
theorem C2_counterexample :
    alookup (save_state [(str ("s"), [str ("9"), str ("10")])]) (str ("s"))
        = some [str ("9"), str ("10")] ∧
      ¬ List.Pairwise (fun a b : Str => keyLeB (keyOf b) (keyOf a) = true)
        [str ("9"), str ("10")] := by
  constructor
  · decide
  · decide

/-- Claim C2 amended: on save each source's list is the plain-string
descending sort of its known ids capped at 3000 entries: it is ordered
descending by code-point string comparison (which coincides with the
numeric comparator only on equal-length digit strings), is at most 3000
long, is drawn from the stored ids, and keeps the string-greatest ids
(every dropped id compares less-or-equal to every kept id). -/
theorem C2_save_state_cap {st : StateMap} {k : Str} {v : KnownList}
    (h : (k, v) ∈ save_state st) :
    v.Pairwise (fun a b => strLe b a = true) ∧ v.length ≤ 3000 ∧
      ∃ orig, (k, orig) ∈ st ∧ (∀ x ∈ v, x ∈ orig) ∧
        (∀ x ∈ orig, x ∉ v → ∀ y ∈ v, strLe x y = true) := by
  rcases List.mem_map.mp h with ⟨kv, hkv, heq⟩
  have h1 : kv.1 = k := congrArg Prod.fst heq
  have h2 : (sSort strDescB kv.2).take 3000 = v := congrArg Prod.snd heq
  have hsorted : (sSort strDescB kv.2).Pairwise (fun a b => strDescB a b = true) :=
    sSort_pairwise strDescB strDescB_trans strDescB_total kv.2
  refine ⟨?_, ?_, kv.2, ?_, ?_, ?_⟩
  · rw [← h2]
    exact List.Pairwise.sublist (List.take_sublist _ _) hsorted
  · rw [← h2, List.length_take]
    exact min_le_left _ _
  · rw [← h1]
    simpa using hkv
  · intro x hx
    rw [← h2] at hx
    exact (mem_sSort _ _ _).mp ((List.take_sublist _ _).mem hx)
  · intro x hx hxv y hy
    have hxfull : x ∈ sSort strDescB kv.2 := (mem_sSort _ _ _).mpr hx
    rw [← List.take_append_drop 3000 (sSort strDescB kv.2)] at hxfull
    rcases List.mem_append.mp hxfull with hxt | hxd
    · rw [h2] at hxt
      exact absurd hxt hxv
    · have hsplit : List.Pairwise (fun a b => strDescB a b = true)
          (List.take 3000 (sSort strDescB kv.2) ++
            List.drop 3000 (sSort strDescB kv.2)) := by
        rw [List.take_append_drop]; exact hsorted
      have hpairs := (List.pairwise_append.mp hsplit).2.2
      have hy' : y ∈ List.take 3000 (sSort strDescB kv.2) := by rw [h2]; exact hy
      exact hpairs y hy' x hxd

/-- Witness for C2 amended, at the counterexample state. -/
theorem C2_save_state_cap_witness :
    ([str ("9"), str ("10")] : KnownList).Pairwise (fun a b => strLe b a = true) ∧
      ([str ("9"), str ("10")] : KnownList).length ≤ 3000 ∧
      ∃ orig, (str ("s"), orig) ∈ [(str ("s"), [str ("9"), str ("10")])] ∧
        (∀ x ∈ ([str ("9"), str ("10")] : KnownList), x ∈ orig) ∧
        (∀ x ∈ orig, x ∉ ([str ("9"), str ("10")] : KnownList) →
          ∀ y ∈ ([str ("9"), str ("10")] : KnownList), strLe x y = true) :=
  @C2_save_state_cap [(str ("s"), [str ("9"), str ("10")])] (str ("s"))
    [str ("9"), str ("10")] (by decide)

/-- Claim C5: in the tabular-row-number strategy a matched row's URL is
resolveRowUrl of its first anchor, and that chain resolves a present,
non-empty, non-placeholder, non-javascript href against the effective base
URL; otherwise a quoted substring of the onclick attribute, resolved
likewise; otherwise the original listing URL. -/
theorem C5_url_chain (ujoin : Str → Str → Str) (tu fu : Str)
    (hrefAttr onclickAttr : Option Str) (tr : Row) :
    (∀ k it, rowCandidate ujoin tu fu tr = some (k, it) →
      ∃ a, tr.firstA = some a ∧
        it.url = resolveRowUrl ujoin tu fu a.href a.onclick) ∧
    ((pyStrip (hrefAttr.getD []) ≠ [] ∧
        pyStrip (hrefAttr.getD []) ∉ placeholders ∧
        (str ("javascript:")).isPrefixOf
          (pyLower (pyStrip (hrefAttr.getD []))) = false →
      resolveRowUrl ujoin tu fu hrefAttr onclickAttr =
        ujoin fu (pyStrip (hrefAttr.getD []))) ∧
     (¬(pyStrip (hrefAttr.getD []) ≠ [] ∧
          pyStrip (hrefAttr.getD []) ∉ placeholders ∧
          (str ("javascript:")).isPrefixOf
            (pyLower (pyStrip (hrefAttr.getD []))) = false) →
        (∀ u, findQuoted (pyStrip (onclickAttr.getD [])) = some u →
          resolveRowUrl ujoin tu fu hrefAttr onclickAttr = ujoin fu u) ∧
        (findQuoted (pyStrip (onclickAttr.getD [])) = none →
          resolveRowUrl ujoin tu fu hrefAttr onclickAttr = tu))) := by
  refine ⟨?_, ?_, ?_⟩
  · intro k it h
    unfold rowCandidate at h
    rcases htds : tr.tds with _ | ⟨no, rest⟩ <;> rw [htds] at h <;> dsimp only at h
    · exact absurd h (by simp)
    · by_cases hd : pyIsDigit no = false
      · rw [if_pos hd] at h; exact absurd h (by simp)
      · rw [if_neg hd] at h
        rcases ha : tr.firstA with _ | a <;> rw [ha] at h <;> dsimp only at h
        · exact absurd h (by simp)
        · by_cases ht : a.text = []
          · rw [if_pos ht] at h; exact absurd h (by simp)
          · rw [if_neg ht] at h
            have hq := Option.some.inj h
            refine ⟨a, rfl, ?_⟩
            have hsnd : (⟨no, a.text,
                resolveRowUrl ujoin tu fu a.href a.onclick⟩ : Item)
                  = it := congrArg Prod.snd hq
            rw [← hsnd]
  · intro hcond
    simp only [resolveRowUrl]
    rw [if_pos hcond]
  · intro hcond
    simp only [resolveRowUrl]
    rw [if_neg hcond]
    constructor
    · intro u hu
      rw [hu]
    · intro hu
      rw [hu]

/-- Witness for C5, the scenario with a placeholder href and an onclick
holding a quoted relative URL. -/
theorem C5_url_chain_witness :
    (∃ a, (⟨[str ("376")], some ⟨str ("Title"), some (str ("#")),
          some (str ("location.href=") ++ [Char.ofNat 39] ++
            str ("view.php?id=9") ++ [Char.ofNat 39]), none⟩⟩ : Row).firstA
        = some a ∧
      (⟨str ("376"), str ("Title"),
          str ("F") ++ str ("view.php?id=9")⟩ : Item).url =
        resolveRowUrl (fun b r => b ++ r) (str ("L")) (str ("F"))
          a.href a.onclick) ∧
    resolveRowUrl (fun b r => b ++ r) (str ("L")) (str ("F"))
        (some (str ("#")))
        (some (str ("location.href=") ++ [Char.ofNat 39] ++
          str ("view.php?id=9") ++ [Char.ofNat 39]))
      = str ("F") ++ str ("view.php?id=9") :=
  ⟨(C5_url_chain (fun b r => b ++ r) (str ("L")) (str ("F"))
      (some (str ("#")))
      (some (str ("location.href=") ++ [Char.ofNat 39] ++
        str ("view.php?id=9") ++ [Char.ofNat 39]))
      ⟨[str ("376")], some ⟨str ("Title"), some (str ("#")),
        some (str ("location.href=") ++ [Char.ofNat 39] ++
          str ("view.php?id=9") ++ [Char.ofNat 39]), none⟩⟩).1
      (str ("376"))
      ⟨str ("376"), str ("Title"), str ("F") ++ str ("view.php?id=9")⟩
      (by decide),
    ((C5_url_chain (fun b r => b ++ r) (str ("L")) (str ("F"))
      (some (str ("#")))
      (some (str ("location.href=") ++ [Char.ofNat 39] ++
        str ("view.php?id=9") ++ [Char.ofNat 39]))
      ⟨[str ("376")], some ⟨str ("Title"), some (str ("#")),
        some (str ("location.href=") ++ [Char.ofNat 39] ++
          str ("view.php?id=9") ++ [Char.ofNat 39]), none⟩⟩).2.2
      (by decide)).1 (str ("view.php?id=9")) (by decide)⟩

/-- Claim C3: the diff step returns exactly the candidates whose id is
absent from the known set, in non-decreasing order under the id comparison
key (numeric when the id is all decimal digits, else lexical); stated for
candidate lists whose keys are mutually comparable (all decimal, or none a
digit string), the only lists on which the sort does not raise. -/
theorem C3_diff (items : List Item) (known : KnownList)
    (h : (∀ it ∈ items, (pyInt it.item_id).isSome = true) ∨
      (∀ it ∈ items, pyIsDigit it.item_id = false)) :
    ∃ l, diffStep items known = Except.ok l ∧
      l.Perm (items.filter (fun it => decide (it.item_id ∉ known))) ∧
      l.Pairwise (fun a b => keyLeB (keyOf a.item_id) (keyOf b.item_id) = true) := by
  by_cases hnew : (items.filter (fun it => decide (it.item_id ∉ known))).isEmpty = true
  · refine ⟨[], ?_, ?_, List.Pairwise.nil⟩
    · unfold diffStep
      rw [if_pos hnew]
    · rw [List.isEmpty_iff.mp hnew]
  · have hmem : ∀ it ∈ items.filter (fun it => decide (it.item_id ∉ known)),
        it ∈ items := fun it hit => (List.mem_filter.mp hit).1
    have hall : (items.filter (fun it => decide (it.item_id ∉ known))).all
        (fun it => (pyKey it.item_id).isSome) = true := by
      rw [List.all_eq_true]
      intro it hit
      rcases h with h | h
      · exact pyKey_isSome_of_int_isSome (h it (hmem it hit))
      · exact pyKey_isSome_of_not_digit (h it (hmem it hit))
    have hmix : ((items.filter (fun it => decide (it.item_id ∉ known))).any
          (fun it => pyIsDigit it.item_id) &&
        (items.filter (fun it => decide (it.item_id ∉ known))).any
          (fun it => !pyIsDigit it.item_id)) = false := by
      rcases h with h | h
      · have : (items.filter (fun it => decide (it.item_id ∉ known))).any
            (fun it => !pyIsDigit it.item_id) = false := by
          rw [List.any_eq_false]
          intro it hit
          have hd := pyInt_isSome_elim (h it (hmem it hit))
          simp [pyIsDigit_of_decimal hd.1 hd.2]
        rw [this, Bool.and_false]
      · have : (items.filter (fun it => decide (it.item_id ∉ known))).any
            (fun it => pyIsDigit it.item_id) = false := by
          rw [List.any_eq_false]
          intro it hit
          simp [h it (hmem it hit)]
        rw [this, Bool.false_and]
    refine ⟨sSort keyAscB (items.filter (fun it => decide (it.item_id ∉ known))),
      ?_, sSort_perm _ _, ?_⟩
    · unfold diffStep
      rw [if_neg hnew, if_pos hall, if_neg (by rw [hmix]; exact Bool.false_ne_true)]
    · refine pairwise_keyOf_of_keyAsc ?_
        (sSort_pairwise keyAscB keyAscB_trans keyAscB_total _)
      intro it hit
      exact List.all_eq_true.mp hall it ((mem_sSort _ _ _).mp hit)

/-- Witness for C3: three candidates, one already known, returned ascending
numerically. -/
theorem C3_diff_witness :
    ∃ l, diffStep
        [⟨str ("10"), str ("A"), str ("u")⟩, ⟨str ("9"), str ("B"), str ("u")⟩,
          ⟨str ("2"), str ("C"), str ("u")⟩] [str ("2")] = Except.ok l ∧
      l.Perm ([⟨str ("10"), str ("A"), str ("u")⟩, ⟨str ("9"), str ("B"), str ("u")⟩,
          ⟨str ("2"), str ("C"), str ("u")⟩].filter
            (fun it => decide (it.item_id ∉ ([str ("2")] : KnownList)))) ∧
      l.Pairwise (fun a b => keyLeB (keyOf a.item_id) (keyOf b.item_id) = true) :=
  C3_diff [⟨str ("10"), str ("A"), str ("u")⟩, ⟨str ("9"), str ("B"), str ("u")⟩,
    ⟨str ("2"), str ("C"), str ("u")⟩] [str ("2")] (Or.inl (by decide))

/-- Claim C8: extraction, under every strategy, returns no item with an
empty title and no two items with the same id, and the item returned for an
id is the value of the last assignment for that id in the encounter
sequence (last occurrence wins). -/
theorem C8_extract_unique {s : Strategy} {ujoin : Str → Str → Str}
    {p : PageInput} {n : Nat} {l : List Item}
    (h : extract s ujoin p n = Except.ok l) :
    (∀ it ∈ l, it.title ≠ []) ∧ (l.map Item.item_id).Nodup ∧
      (∀ it ∈ l, lastAssoc (strategyCands s ujoin p) it.item_id = some it) := by
  unfold extract at h
  rcases hfull : extractAll s ujoin p with e | full <;> rw [hfull] at h
  · simp [Except.map] at h
  · simp only [Except.map] at h
    have hl := Except.ok.inj h
    subst hl
    rcases extractAll_ok_core hfull with ⟨ht, hnd, hlast, _⟩
    refine ⟨?_, ?_, ?_⟩
    · intro it hit
      exact ht it ((List.take_sublist n full).mem hit)
    · exact List.Nodup.sublist ((List.take_sublist n full).map Item.item_id) hnd
    · intro it hit
      exact hlast it ((List.take_sublist n full).mem hit)

/-- Witness for C8: a keyed-link page where one id occurs twice; the later
occurrence wins and ids are unique. -/
theorem C8_extract_unique_witness :
    (∀ it ∈ [(⟨str ("47"), str ("Second One"), str ("view.asp?Key=47&b=2")⟩ : Item),
        ⟨str ("5"), str ("Another post"), str ("view.asp?Key=5")⟩], it.title ≠ []) ∧
      (([(⟨str ("47"), str ("Second One"), str ("view.asp?Key=47&b=2")⟩ : Item),
        ⟨str ("5"), str ("Another post"), str ("view.asp?Key=5")⟩]).map
          Item.item_id).Nodup ∧
      (∀ it ∈ [(⟨str ("47"), str ("Second One"), str ("view.asp?Key=47&b=2")⟩ : Item),
          ⟨str ("5"), str ("Another post"), str ("view.asp?Key=5")⟩],
        lastAssoc (strategyCands Strategy.linkWithKey (fun _ r => r)
          ⟨str ("T"), str ("F"), str ("B"), str ("P"), str ("K"), [],
            [⟨str ("First Title"), some (str ("view.asp?Key=47")), none, none⟩,
             ⟨str ("Second One"), some (str ("view.asp?Key=47&b=2")), none, none⟩,
             ⟨str ("Another post"), some (str ("view.asp?Key=5")), none, none⟩]⟩)
          it.item_id = some it) :=
  @C8_extract_unique Strategy.linkWithKey (fun _ r => r)
    ⟨str ("T"), str ("F"), str ("B"), str ("P"), str ("K"), [],
      [⟨str ("First Title"), some (str ("view.asp?Key=47")), none, none⟩,
       ⟨str ("Second One"), some (str ("view.asp?Key=47&b=2")), none, none⟩,
       ⟨str ("Another post"), some (str ("view.asp?Key=5")), none, none⟩]⟩
    30 _ (by rfl)

/-- Claim C9: under every strategy the uncapped extraction is already
ordered most-recent-first (descending under the id comparison key), the
capped extraction is its latest_n prefix, and the result never exceeds
latest_n items. -/
theorem C9_cap_and_order {s : Strategy} {ujoin : Str → Str → Str}
    {p : PageInput} {full : List Item}
    (h : extractAll s ujoin p = Except.ok full) :
    full.Pairwise (fun a b => keyLeB (keyOf b.item_id) (keyOf a.item_id) = true) ∧
      ∀ n, extract s ujoin p n = Except.ok (full.take n) ∧
        (full.take n).length ≤ n := by
  rcases extractAll_ok_core h with ⟨_, _, _, hpair⟩
  refine ⟨hpair, ?_⟩
  intro n
  constructor
  · unfold extract
    rw [h]
    rfl
  · rw [List.length_take]
    exact min_le_left _ _

/-- Witness for C9, at the page of the C8 witness with a cap of one. -/
theorem C9_cap_and_order_witness :
    ([(⟨str ("47"), str ("Second One"), str ("view.asp?Key=47&b=2")⟩ : Item),
        ⟨str ("5"), str ("Another post"), str ("view.asp?Key=5")⟩].Pairwise
          (fun a b => keyLeB (keyOf b.item_id) (keyOf a.item_id) = true)) ∧
      ∀ n, extract Strategy.linkWithKey (fun _ r => r)
          ⟨str ("T"), str ("F"), str ("B"), str ("P"), str ("K"), [],
            [⟨str ("First Title"), some (str ("view.asp?Key=47")), none, none⟩,
             ⟨str ("Second One"), some (str ("view.asp?Key=47&b=2")), none, none⟩,
             ⟨str ("Another post"), some (str ("view.asp?Key=5")), none, none⟩]⟩ n
          = Except.ok
            ([(⟨str ("47"), str ("Second One"), str ("view.asp?Key=47&b=2")⟩ : Item),
              ⟨str ("5"), str ("Another post"), str ("view.asp?Key=5")⟩].take n) ∧
        (([(⟨str ("47"), str ("Second One"), str ("view.asp?Key=47&b=2")⟩ : Item),
          ⟨str ("5"), str ("Another post"), str ("view.asp?Key=5")⟩].take n)).length ≤ n :=
  @C9_cap_and_order Strategy.linkWithKey (fun _ r => r)
    ⟨str ("T"), str ("F"), str ("B"), str ("P"), str ("K"), [],
      [⟨str ("First Title"), some (str ("view.asp?Key=47")), none, none⟩,
       ⟨str ("Second One"), some (str ("view.asp?Key=47&b=2")), none, none⟩,
       ⟨str ("Another post"), some (str ("view.asp?Key=5")), none, none⟩]⟩
    _ (by rfl)

/-- Claim C10 as stated is false on the code: Python isdigit also accepts
non-decimal digit characters; a first cell holding superscript two
(U+00B2) passes the isdigit check of the tabular strategy, the produced
candidate id is not a decimal string, int on it raises, and extraction
errors instead of returning items. -/
theorem C10_counterexample :
    ((candListNumberId (fun _ r => r) (str ("L")) (str ("B"))
        [⟨[[Char.ofNat 178]],
          some ⟨str ("Title"), some (str ("/a")), none, none⟩⟩] []).map Prod.fst
      = [[Char.ofNat 178]]) ∧
      pyIsDigit [Char.ofNat 178] = true ∧
      pyInt [Char.ofNat 178] = none ∧
      parse_html_list_number_id (fun _ r => r) (str ("L")) (str ("B"))
          [⟨[[Char.ofNat 178]],
            some ⟨str ("Title"), some (str ("/a")), none, none⟩⟩] [] 30
        = Except.error () := by
  refine ⟨by decide, by decide, by decide, by rfl⟩

/-- Claim C10 amended: the three regex strategies (keyed query parameter,
path segment number, num parameter) produce only candidates whose id is a
non-empty string of decimal digits, their extraction never raises from the
int sort key, and the ascending diff sort of run_target never raises on
items whose ids are all decimal; the tabular strategy's isdigit guard,
however, admits non-decimal Unicode digits on which int raises (see the
counterexample). -/
theorem C10_digit_ids (ujoin : Str → Str → Str) (fu pathPre : Str)
    (anchors : List Anchor) :
    (∀ q ∈ candLinkWithKey ujoin fu anchors,
        q.2.item_id ≠ [] ∧ q.2.item_id.all Char.isDigit = true) ∧
    (∀ q ∈ candLinkWithPathNumber ujoin pathPre fu anchors,
        q.2.item_id ≠ [] ∧ q.2.item_id.all Char.isDigit = true) ∧
    (∀ q ∈ candLinkWithNumParam ujoin fu anchors,
        q.2.item_id ≠ [] ∧ q.2.item_id.all Char.isDigit = true) ∧
    (∃ l, parse_html_link_with_key_all ujoin fu anchors = Except.ok l) ∧
    (∃ l, parse_html_link_with_path_number_all ujoin pathPre fu anchors
      = Except.ok l) ∧
    (∃ l, parse_html_link_with_num_param_all ujoin fu anchors = Except.ok l) ∧
    (∀ (send : Item → Bool) (name : Str) (items : List Item) (st : StateMap),
      (∀ it ∈ items, (pyInt it.item_id).isSome = true) →
      (run_target send name (Except.ok items) st).kind ≠ OutcomeKind.sortError) := by
  have hkey : ∀ q ∈ candLinkWithKey ujoin fu anchors,
      q.2.item_id ≠ [] ∧ q.2.item_id.all Char.isDigit = true := by
    intro q hq
    rcases List.mem_filterMap.mp hq with ⟨a, _, ha⟩
    rcases linkCandidate_props ha with ⟨hid, _, href, hext⟩
    rw [hid]
    exact findParamNum_decimal _ _ _ hext
  have hpath : ∀ q ∈ candLinkWithPathNumber ujoin pathPre fu anchors,
      q.2.item_id ≠ [] ∧ q.2.item_id.all Char.isDigit = true := by
    intro q hq
    rcases List.mem_filterMap.mp hq with ⟨a, _, ha⟩
    rcases linkCandidate_props ha with ⟨hid, _, href, hext⟩
    rw [hid]
    exact findPathNum_decimal _ _ _ hext
  have hnum : ∀ q ∈ candLinkWithNumParam ujoin fu anchors,
      q.2.item_id ≠ [] ∧ q.2.item_id.all Char.isDigit = true := by
    intro q hq
    rcases List.mem_filterMap.mp hq with ⟨a, _, ha⟩
    rcases linkCandidate_props ha with ⟨hid, _, href, hext⟩
    rw [hid]
    exact findParamNum_decimal _ _ _ hext
  refine ⟨hkey, hpath, hnum, ?_, ?_, ?_, ?_⟩
  · exact finishIntAll_ok_of_decimal
      (fun q hq => pyInt_isSome_of_decimal (hkey q hq).1 (hkey q hq).2)
  · exact finishIntAll_ok_of_decimal
      (fun q hq => pyInt_isSome_of_decimal (hpath q hq).1 (hpath q hq).2)
  · exact finishIntAll_ok_of_decimal
      (fun q hq => pyInt_isSome_of_decimal (hnum q hq).1 (hnum q hq).2)
  · intro send name items st hdec habs
    rw [run_target_ok_eq] at habs
    dsimp only at habs
    by_cases h1 : items.isEmpty = true
    · rw [if_pos h1] at habs; simp at habs
    · rw [if_neg h1] at habs
      by_cases h2 : (items.filter (fun it =>
          decide (it.item_id ∉ (alookup st name).getD []))).isEmpty = true
      · rw [if_pos h2] at habs; simp at habs
      · rw [if_neg h2] at habs
        have h3 : (items.filter (fun it =>
            decide (it.item_id ∉ (alookup st name).getD []))).all
              (fun it => (pyInt it.item_id).isSome) = true := by
          rw [List.all_eq_true]
          intro it hit
          exact hdec it (List.mem_filter.mp hit).1
        rw [if_pos h3] at habs
        by_cases h4 : (newSorted items ((alookup st name).getD [])).all send = true
        · rw [if_pos h4] at habs; simp at habs
        · rw [if_neg h4] at habs; simp at habs

/-- Witness for C10 amended: the diff sort of run_target does not raise on
a decimal-id item list. -/
theorem C10_digit_ids_witness :
    (run_target (fun _ => true) (str ("s"))
        (Except.ok [⟨str ("7"), str ("A"), str ("u")⟩]) []).kind ≠
      OutcomeKind.sortError :=
  (C10_digit_ids (fun _ r => r) (str ("F")) (str ("P")) []).2.2.2.2.2.2
    (fun _ => true) (str ("s")) [⟨str ("7"), str ("A"), str ("u")⟩] []
    (by decide)

/-! run_target on a fully known page, and the facts a committed run gives. -/

theorem run_target_noNew_of_all_known {send : Item → Bool} {name : Str}
    {items : List Item} {st : StateMap} (hne : items.isEmpty = false)
    (hall : ∀ it ∈ items, it.item_id ∈ (alookup st name).getD []) :
    run_target send name (Except.ok items) st =
      ⟨OutcomeKind.noNew, [], st⟩ := by
  rw [run_target_ok_eq]
  dsimp only
  rw [if_neg (by rw [hne]; exact Bool.false_ne_true)]
  rw [if_pos ?_]
  rw [List.isEmpty_iff, List.filter_eq_nil_iff]
  intro a ha
  simpa using hall a ha

theorem run_target_committed_facts {send : Item → Bool} {name : Str}
    {items : List Item} {st : StateMap}
    (h : (run_target send name (Except.ok items) st).kind
      = OutcomeKind.committed) :
    items.isEmpty = false ∧
      (run_target send name (Except.ok items) st).state =
        dictUpsert st name (addAll ((alookup st name).getD [])
          (newSorted items ((alookup st name).getD []))) ∧
      (newSorted items ((alookup st name).getD [])).all send = true := by
  rw [run_target_ok_eq] at h ⊢
  dsimp only at h ⊢
  by_cases h1 : items.isEmpty = true
  · rw [if_pos h1] at h; simp at h
  · rw [if_neg h1] at h ⊢
    by_cases h2 : (items.filter (fun it =>
        decide (it.item_id ∉ (alookup st name).getD []))).isEmpty = true
    · rw [if_pos h2] at h; simp at h
    · rw [if_neg h2] at h ⊢
      by_cases h3 : (items.filter (fun it =>
          decide (it.item_id ∉ (alookup st name).getD []))).all
            (fun it => (pyInt it.item_id).isSome) = true
      · rw [if_pos h3] at h ⊢
        by_cases h4 : (newSorted items ((alookup st name).getD [])).all send = true
        · rw [if_pos h4]
          rw [takeWhile_eq_self_of_all h4]
          exact ⟨by revert h1; cases items.isEmpty <;> simp, rfl, h4⟩
        · rw [if_neg h4] at h; simp at h
      · rw [if_neg h3] at h; simp at h

theorem mem_addAll_newSorted {items : List Item} {seen : KnownList}
    {it : Item} (hit : it ∈ items) :
    it.item_id ∈ addAll seen (newSorted items seen) := by
  by_cases hs : it.item_id ∈ seen
  · exact mem_addAll_of_mem _ _ hs
  · refine mem_addAll_of_mem_items _ ?_ _
    unfold newSorted
    rw [mem_sSort]
    exact List.mem_filter.mpr ⟨hit, by simpa using hs⟩

/-- Claim C7: a second run on the same items, starting from the state left
by a fully successful (committed) first run, finds zero new items, sends no
new-item notification, and leaves the state unchanged. -/
theorem C7_idempotent (send send' : Item → Bool) (name : Str)
    (items : List Item) (st : StateMap)
    (h : (run_target send name (Except.ok items) st).kind
      = OutcomeKind.committed) :
    run_target send' name (Except.ok items)
        (run_target send name (Except.ok items) st).state =
      ⟨OutcomeKind.noNew, [],
        (run_target send name (Except.ok items) st).state⟩ := by
  obtain ⟨hne, hstate, _⟩ := run_target_committed_facts h
  refine run_target_noNew_of_all_known hne ?_
  intro it hit
  rw [hstate, alookup_dictUpsert, if_pos rfl]
  simp only [Option.getD_some]
  exact mem_addAll_newSorted hit

/-- Witness for C7: one item, delivered on the first run; the second run
reports no new items with the state untouched. -/
theorem C7_idempotent_witness :
    run_target (fun _ => false) (str ("s"))
        (Except.ok [⟨str ("1"), str ("A"), str ("u")⟩])
        (run_target (fun _ => true) (str ("s"))
          (Except.ok [⟨str ("1"), str ("A"), str ("u")⟩]) []).state =
      ⟨OutcomeKind.noNew, [],
        (run_target (fun _ => true) (str ("s"))
          (Except.ok [⟨str ("1"), str ("A"), str ("u")⟩]) []).state⟩ :=
  C7_idempotent (fun _ => true) (fun _ => false) (str ("s"))
    [⟨str ("1"), str ("A"), str ("u")⟩] [] (by decide)

/-- Claim C1 as stated is false on the code: for a source with no prior
entry in the state mapping, the id of an item sent before a failing send is
added only to the local in-memory set; the assignment into the state
mapping after the loop is never reached, so the id is absent from the
persisted state (here the state has no entry for the source at all). -/
theorem C1_counterexample :
    (run_target (fun it => decide (it.item_id = str ("1"))) (str ("s"))
        (Except.ok [⟨str ("1"), str ("A"), str ("u")⟩,
          ⟨str ("2"), str ("B"), str ("u")⟩]) []).kind
        = OutcomeKind.sendFailed ∧
      (run_target (fun it => decide (it.item_id = str ("1"))) (str ("s"))
        (Except.ok [⟨str ("1"), str ("A"), str ("u")⟩,
          ⟨str ("2"), str ("B"), str ("u")⟩]) []).sent
        = [⟨str ("1"), str ("A"), str ("u")⟩] ∧
      alookup (save_state (run_target (fun it => decide (it.item_id = str ("1")))
          (str ("s")) (Except.ok [⟨str ("1"), str ("A"), str ("u")⟩,
            ⟨str ("2"), str ("B"), str ("u")⟩]) []).state) (str ("s"))
        = none :=
  ⟨by decide, by decide, by decide⟩

/-- Claim C1 amended: when a send fails the delivered items are exactly the
prefix of the ascending new items up to the first failure, so nothing
further is sent this run; when the source already had an entry in the state
mapping, the set is shared by reference, every id added before the failure
is in the state entry at run end and, if that entry holds at most 3000 ids,
also in the persisted state; when the source had no prior entry, a failing
send leaves the state mapping without an entry for the source, so the ids
added in memory are not persisted. -/
theorem C1_send_failure (send : Item → Bool) (name : Str) (items : List Item)
    (st : StateMap) :
    ((run_target send name (Except.ok items) st).kind = OutcomeKind.committed ∨
        (run_target send name (Except.ok items) st).kind = OutcomeKind.sendFailed →
      (run_target send name (Except.ok items) st).sent =
        (newSorted items ((alookup st name).getD [])).takeWhile send) ∧
    ((alookup st name).isSome = true →
      ∀ it ∈ (run_target send name (Except.ok items) st).sent,
        it.item_id ∈ ((alookup (run_target send name (Except.ok items) st).state
            name).getD []) ∧
          (((alookup (run_target send name (Except.ok items) st).state
              name).getD []).length ≤ 3000 →
            it.item_id ∈ ((alookup (save_state
              (run_target send name (Except.ok items) st).state) name).getD []))) ∧
    (alookup st name = none →
      (run_target send name (Except.ok items) st).kind = OutcomeKind.sendFailed →
      alookup (run_target send name (Except.ok items) st).state name = none) := by
  rw [run_target_ok_eq]
  dsimp only
  by_cases h1 : items.isEmpty = true
  · rw [if_pos h1]
    refine ⟨?_, ?_, ?_⟩
    · rintro (hk | hk) <;> simp at hk
    · intro _ it hit; simp at hit
    · intro _ hk; simp at hk
  · rw [if_neg h1]
    by_cases h2 : (items.filter (fun it =>
        decide (it.item_id ∉ (alookup st name).getD []))).isEmpty = true
    · rw [if_pos h2]
      refine ⟨?_, ?_, ?_⟩
      · rintro (hk | hk) <;> simp at hk
      · intro _ it hit; simp at hit
      · intro _ hk; simp at hk
    · rw [if_neg h2]
      by_cases h3 : (items.filter (fun it =>
          decide (it.item_id ∉ (alookup st name).getD []))).all
            (fun it => (pyInt it.item_id).isSome) = true
      · rw [if_pos h3]
        by_cases h4 : (newSorted items ((alookup st name).getD [])).all send = true
        · rw [if_pos h4]
          refine ⟨fun _ => rfl, ?_, ?_⟩
          · intro hsome it hit
            have hmem : it.item_id ∈ addAll ((alookup st name).getD [])
                ((newSorted items ((alookup st name).getD [])).takeWhile send) :=
              mem_addAll_of_mem_items _ hit _
            constructor
            · rw [alookup_dictUpsert, if_pos rfl]
              simpa using hmem
            · intro hlen
              rw [alookup_dictUpsert, if_pos rfl] at hlen
              rw [alookup_save_state, alookup_dictUpsert, if_pos rfl]
              simp only [Option.getD_some, Option.map_some] at hlen ⊢
              exact mem_take_sort_of_le hlen hmem
          · intro hnone hk
            simp at hk
        · rw [if_neg h4]
          refine ⟨fun _ => rfl, ?_, ?_⟩
          · intro hsome it hit
            by_cases htw : (newSorted items
                ((alookup st name).getD [])).takeWhile send = []
            · rw [htw] at hit; simp at hit
            · rw [if_pos ⟨hsome, htw⟩]
              have hmem : it.item_id ∈ addAll ((alookup st name).getD [])
                  ((newSorted items ((alookup st name).getD [])).takeWhile send) :=
                mem_addAll_of_mem_items _ hit _
              constructor
              · rw [alookup_dictUpsert, if_pos rfl]
                simpa using hmem
              · intro hlen
                rw [alookup_dictUpsert, if_pos rfl] at hlen
                rw [alookup_save_state, alookup_dictUpsert, if_pos rfl]
                simp only [Option.getD_some, Option.map_some] at hlen ⊢
                exact mem_take_sort_of_le hlen hmem
          · intro hnone hk
            have hfalse : (alookup st name).isSome = false := by rw [hnone]; rfl
            rw [if_neg ?_]
            · exact hnone
            · rintro ⟨hs, _⟩
              rw [hfalse] at hs
              exact absurd hs (by simp)
      · rw [if_neg h3]
        refine ⟨?_, ?_, ?_⟩
        · rintro (hk | hk) <;> simp at hk
        · intro _ it hit; simp at hit
        · intro _ hk; simp at hk

/-- Witness for C1 amended: a source that already has a state entry; the
first item is delivered, the second send fails, the delivered id is in the
state entry and in the persisted output. -/
theorem C1_send_failure_witness :
    ((run_target (fun it => decide (it.item_id = str ("1"))) (str ("s"))
        (Except.ok [⟨str ("1"), str ("A"), str ("u")⟩,
          ⟨str ("2"), str ("B"), str ("u")⟩])
        [(str ("s"), [str ("0")])]).sent =
      (newSorted [⟨str ("1"), str ("A"), str ("u")⟩,
          ⟨str ("2"), str ("B"), str ("u")⟩]
        ((alookup [(str ("s"), [str ("0")])] (str ("s"))).getD [])).takeWhile
        (fun it => decide (it.item_id = str ("1")))) ∧
    ((⟨str ("1"), str ("A"), str ("u")⟩ : Item).item_id ∈
        ((alookup (run_target (fun it => decide (it.item_id = str ("1")))
          (str ("s")) (Except.ok [⟨str ("1"), str ("A"), str ("u")⟩,
            ⟨str ("2"), str ("B"), str ("u")⟩])
          [(str ("s"), [str ("0")])]).state (str ("s"))).getD []) ∧
      (((alookup (run_target (fun it => decide (it.item_id = str ("1")))
            (str ("s")) (Except.ok [⟨str ("1"), str ("A"), str ("u")⟩,
              ⟨str ("2"), str ("B"), str ("u")⟩])
            [(str ("s"), [str ("0")])]).state (str ("s"))).getD []).length ≤ 3000 →
        (⟨str ("1"), str ("A"), str ("u")⟩ : Item).item_id ∈
          ((alookup (save_state (run_target (fun it => decide (it.item_id = str ("1")))
            (str ("s")) (Except.ok [⟨str ("1"), str ("A"), str ("u")⟩,
              ⟨str ("2"), str ("B"), str ("u")⟩])
            [(str ("s"), [str ("0")])]).state) (str ("s"))).getD []))) :=
  ⟨(C1_send_failure (fun it => decide (it.item_id = str ("1"))) (str ("s"))
      [⟨str ("1"), str ("A"), str ("u")⟩, ⟨str ("2"), str ("B"), str ("u")⟩]
      [(str ("s"), [str ("0")])]).1 (Or.inr (by decide)),
    (C1_send_failure (fun it => decide (it.item_id = str ("1"))) (str ("s"))
      [⟨str ("1"), str ("A"), str ("u")⟩, ⟨str ("2"), str ("B"), str ("u")⟩]
      [(str ("s"), [str ("0")])]).2.1 (by decide)
      ⟨str ("1"), str ("A"), str ("u")⟩ (by decide)⟩

end NotiWatch
